import Mathlib

/-!
# Verification of the culture-fit analysis pipeline

Shallow embedding, in Lean 4, of the core components of the
`ktb-ai-week-langchain-server` repository:

* the defensive JSON output extractors (`parse_json_with_markdown` in
  `src/api/langchain_pipeline/chains/compare_chain.py` and
  `src/api/langchain_pipeline/chains/company_chain.py`, and the inline
  fence-stripping extraction in
  `src/api/langchain_pipeline/chains/applicant_chain.py`),
* the organization matcher (`match_company` and the static tables in
  `src/api/langchain_pipeline/config.py`),
* the remote-document upload/poll/delete lifecycle
  (`src/api/langchain_pipeline/loaders/s3_pdf_loader.py` and
  `local_pdf_loader.py`),
* the headless-browser scraper (`src/api/langchain_pipeline/scrapers/browser_scraper.py`),
* the per-subject chains and the orchestrator
  (`src/api/langchain_pipeline/chains/company_chain.py`,
  `applicant_chain.py`, `src/api/services/pipeline.py`).

External effects (network fetches, provider calls, S3, the remote document
service, the database) are modelled by explicit oracles: a record of
functions giving the outcome of each external call.  Each embedded
function additionally returns a trace of the external calls it performed,
so resource and persistence properties are statements about traces.

Python strings are modelled as Lean `String`/`List Char`.  `str.strip()`
and the regex class `\s` are modelled over the six ASCII whitespace
characters (space, `\t`, `\n`, `\r`, `\x0b`, `\x0c`); the inputs the
claims are about are covered by this set.  `str.lower()` is modelled as
ASCII lowercasing; all configured keywords are caseless or lowercase
ASCII, so the matcher is unaffected.  JSON numbers keep their source
lexeme verbatim (no claim depends on numeric value semantics, and this
avoids floating point).
-/

namespace CultureFit

/-! ## Characters and Python-style string helpers -/

/-- The character `{` (written via its code so the source stays plain). -/
def lbrace : Char := Char.ofNat 123

/-- The character `}`. -/
def rbrace : Char := Char.ofNat 125

/-- The backtick character. -/
def btick : Char := Char.ofNat 96

/-- ASCII whitespace as stripped by Python `str.strip()` / matched by `\s`. -/
def isPyWs (c : Char) : Bool :=
  c = ' ' || c = '\t' || c = '\n' || c = '\r' || c = Char.ofNat 11 || c = Char.ofNat 12

/-- JSON inter-token whitespace as skipped by Python's `json` scanner
(`json.decoder.WHITESPACE`): space, tab, newline, carriage return. -/
def isJsonWs (c : Char) : Bool :=
  c = ' ' || c = '\t' || c = '\n' || c = '\r'

/-- Left part of `str.strip()`. -/
def stripLeft (cs : List Char) : List Char := cs.dropWhile isPyWs

/-- Right part of `str.strip()`. -/
def stripRight (cs : List Char) : List Char := (cs.reverse.dropWhile isPyWs).reverse

/-- Python `str.strip()` on char lists. -/
def pyStrip (cs : List Char) : List Char := stripRight (stripLeft cs)

/-- Python `str.strip()` on strings. -/
def pyStripS (s : String) : String := ⟨pyStrip s.data⟩

/-- ASCII lowercasing, modelling `str.lower()` on the inputs in scope. -/
def pyLower (cs : List Char) : List Char := cs.map Char.toLower

/-- First index (if any) at which `pat` occurs as a contiguous sublist of
`cs`; models Python `str.find` for found/not-found and `in`. -/
def findSub (cs pat : List Char) : Option Nat :=
  if pat.isPrefixOf cs then some 0
  else
    match cs with
    | [] => none
    | _ :: cs' => (findSub cs' pat).map (· + 1)

/-- Python `pat in s` on char lists. -/
def containsSub (cs pat : List Char) : Bool := (findSub cs pat).isSome

/-- Python `pat in s` on strings. -/
def containsSubS (s pat : String) : Bool := containsSub s.data pat.data

/-! ## JSON values and the Python `json` scanner

`JValue` is the shape of what `json.loads` / `JSONDecoder.raw_decode`
return.  Number lexemes are kept verbatim. -/

inductive JValue where
  | jnull : JValue
  | jbool : Bool → JValue
  | jnum : String → JValue
  | jstr : String → JValue
  | jarr : List JValue → JValue
  | jobj : List (String × JValue) → JValue

/-- One character of a JSON string literal after the opening quote:
either a plain character (strict mode refuses raw control characters
below 0x20) or a backslash escape.  Returns the decoded characters and
the rest, consuming at least one character. -/
def hexVal (c : Char) : Option Nat :=
  if '0' ≤ c ∧ c ≤ '9' then some (c.toNat - '0'.toNat)
  else if 'a' ≤ c ∧ c ≤ 'f' then some (c.toNat - 'a'.toNat + 10)
  else if 'A' ≤ c ∧ c ≤ 'F' then some (c.toNat - 'A'.toNat + 10)
  else none

/-- Scan a JSON string literal body (cursor just past the opening `"`),
with the backslash escapes of `json.decoder.py_scanstring` in strict
mode.  `\uXXXX` is decoded to the code point (surrogate pairs are out of
scope for the claims).  Fuel bounds the recursion; `cs.length + 1` always
suffices because every step consumes at least one character. -/
def scanString : Nat → List Char → Option (List Char × List Char)
  | 0, _ => none
  | _ + 1, [] => none
  | fuel + 1, c :: rest =>
    if c = '"' then
      some ([], rest)
    else if c = '\\' then
      match rest with
      | [] => none
      | e :: rest' =>
        let dec : Option (Char × List Char) :=
          if e = '"' then some ('"', rest')
          else if e = '\\' then some ('\\', rest')
          else if e = '/' then some ('/', rest')
          else if e = 'b' then some (Char.ofNat 8, rest')
          else if e = 'f' then some (Char.ofNat 12, rest')
          else if e = 'n' then some ('\n', rest')
          else if e = 'r' then some ('\r', rest')
          else if e = 't' then some ('\t', rest')
          else if e = 'u' then
            match rest' with
            | h1 :: h2 :: h3 :: h4 :: rest'' =>
              match hexVal h1, hexVal h2, hexVal h3, hexVal h4 with
              | some a, some b, some c3, some d =>
                some (Char.ofNat (((a * 16 + b) * 16 + c3) * 16 + d), rest'')
              | _, _, _, _ => none
            | _ => none
          else none
        match dec with
        | some (ch, rest'') =>
          (scanString fuel rest'').map (fun (s, r) => (ch :: s, r))
        | none => none
    else if c.toNat < 32 then
      none
    else
      (scanString fuel rest).map (fun (s, r) => (c :: s, r))

/-- The lexeme of a JSON number at the head of `cs`, per
`json.decoder.NUMBER_RE`: `-?(0|[1-9]\d*)(\.\d+)?([eE][+-]?\d+)?`.
Returns the lexeme and the rest, or `none` if no number starts here. -/
def scanNumber (cs : List Char) : Option (List Char × List Char) :=
  let isDigit : Char → Bool := fun c => '0' ≤ c && c ≤ '9'
  let (sign, cs1) :=
    match cs with
    | '-' :: rest => (['-'], rest)
    | _ => (([] : List Char), cs)
  match cs1 with
  | [] => none
  | d :: rest =>
    if ¬ isDigit d then none
    else
      let (intPart, cs2) :=
        if d = '0' then ([d], rest)
        else (d :: rest.takeWhile isDigit, rest.dropWhile isDigit)
      let (fracPart, cs3) :=
        match cs2 with
        | '.' :: f :: r =>
          if isDigit f then
            ('.' :: f :: r.takeWhile isDigit, r.dropWhile isDigit)
          else (([] : List Char), cs2)
        | _ => (([] : List Char), cs2)
      let (expPart, cs4) :=
        match cs3 with
        | e :: '+' :: d2 :: r2 =>
          if (e = 'e' ∨ e = 'E') ∧ isDigit d2 then
            (e :: '+' :: d2 :: r2.takeWhile isDigit, r2.dropWhile isDigit)
          else (([] : List Char), cs3)
        | e :: '-' :: d2 :: r2 =>
          if (e = 'e' ∨ e = 'E') ∧ isDigit d2 then
            (e :: '-' :: d2 :: r2.takeWhile isDigit, r2.dropWhile isDigit)
          else (([] : List Char), cs3)
        | e :: d2 :: r2 =>
          if (e = 'e' ∨ e = 'E') ∧ isDigit d2 then
            (e :: d2 :: r2.takeWhile isDigit, r2.dropWhile isDigit)
          else (([] : List Char), cs3)
        | _ => (([] : List Char), cs3)
      some (sign ++ intPart ++ fracPart ++ expPart, cs4)

mutual

/-- `json` scanner: one JSON value at the head of `cs` (no leading
whitespace skipped, exactly like `JSONDecoder.raw_decode` at `idx`).
Returns the value and the unconsumed rest. -/
def parseVal : Nat → List Char → Option (JValue × List Char)
  | 0, _ => none
  | _ + 1, [] => none
  | fuel + 1, c :: rest =>
    if c = '"' then
      (scanString (rest.length + 1) rest).map (fun (s, r) => (.jstr ⟨s⟩, r))
    else if c = lbrace then
      let cs1 := rest.dropWhile isJsonWs
      match cs1 with
      | c1 :: r1 =>
        if c1 = rbrace then some (.jobj [], r1)
        else parseMembers fuel cs1 []
      | [] => none
    else if c = '[' then
      let cs1 := rest.dropWhile isJsonWs
      match cs1 with
      | c1 :: r1 =>
        if c1 = ']' then some (.jarr [], r1)
        else parseElems fuel cs1 []
      | [] => none
    else if ['t', 'r', 'u', 'e'].isPrefixOf (c :: rest) then
      some (.jbool true, (c :: rest).drop 4)
    else if ['f', 'a', 'l', 's', 'e'].isPrefixOf (c :: rest) then
      some (.jbool false, (c :: rest).drop 5)
    else if ['n', 'u', 'l', 'l'].isPrefixOf (c :: rest) then
      some (.jnull, (c :: rest).drop 4)
    else if ['N', 'a', 'N'].isPrefixOf (c :: rest) then
      some (.jnum "NaN", (c :: rest).drop 3)
    else if ['I', 'n', 'f', 'i', 'n', 'i', 't', 'y'].isPrefixOf (c :: rest) then
      some (.jnum "Infinity", (c :: rest).drop 8)
    else if ['-', 'I', 'n', 'f', 'i', 'n', 'i', 't', 'y'].isPrefixOf (c :: rest) then
      some (.jnum "-Infinity", (c :: rest).drop 9)
    else
      (scanNumber (c :: rest)).map (fun (lex, r) => (.jnum ⟨lex⟩, r))

/-- Members of a JSON object, cursor at the first character of a key
(whitespace already skipped). -/
def parseMembers : Nat → List Char → List (String × JValue) →
    Option (JValue × List Char)
  | 0, _, _ => none
  | _ + 1, [], _ => none
  | fuel + 1, c :: rest, acc =>
    if c = '"' then
      match scanString (rest.length + 1) rest with
      | none => none
      | some (key, r1) =>
        match r1.dropWhile isJsonWs with
        | ':' :: r2 =>
          match parseVal fuel (r2.dropWhile isJsonWs) with
          | none => none
          | some (v, r3) =>
            let acc' := acc ++ [(⟨key⟩, v)]
            match r3.dropWhile isJsonWs with
            | ',' :: r4 => parseMembers fuel (r4.dropWhile isJsonWs) acc'
            | c4 :: r4 => if c4 = rbrace then some (.jobj acc', r4) else none
            | [] => none
        | _ => none
    else none

/-- Elements of a JSON array, cursor at the first character of an element
(whitespace already skipped). -/
def parseElems : Nat → List Char → List JValue → Option (JValue × List Char)
  | 0, _, _ => none
  | fuel + 1, cs, acc =>
    match parseVal fuel cs with
    | none => none
    | some (v, r1) =>
      let acc' := acc ++ [v]
      match r1.dropWhile isJsonWs with
      | ',' :: r2 => parseElems fuel (r2.dropWhile isJsonWs) acc'
      | ']' :: r2 => some (.jarr acc', r2)
      | _ => none

end

/-- `json.JSONDecoder().raw_decode(text)`: the first complete JSON value
starting exactly at the head of `cs`, plus the unconsumed rest.  `none`
models the `ValueError` the decoder raises.  The fuel `cs.length + 2`
dominates the recursion because every recursive call consumes at least one
input character first. -/
def rawDecode (cs : List Char) : Option (JValue × List Char) :=
  parseVal (cs.length + 2) cs

/-- `json.loads(text)`: skip leading JSON whitespace, decode one value,
then require only JSON whitespace to remain ("Extra data" otherwise). -/
def pyLoads (s : String) : Option JValue :=
  match rawDecode (s.data.dropWhile isJsonWs) with
  | none => none
  | some (v, rest) => if rest.dropWhile isJsonWs = [] then some v else none

/-! ## Markdown fence extraction

`compare_chain.py` and `company_chain.py` strip fences with
`re.search(r'```json\s*(.*?)\s*```', text, re.DOTALL)` (and the analogous
plain-fence pattern).  For such a pattern the leftmost match starts at the
first occurrence of the opening literal that is followed by a later
closing triple backtick, and since `(.*?)` is lazy while the two `\s*`
absorb the surrounding whitespace, `group(1)` is the text strictly
between that opener and the *next* triple backtick, with surrounding
whitespace stripped.  `fenceSearch` computes exactly that. -/

/-- The opening literal of a json-tagged fence, `"```json"`. -/
def jsonFenceL : List Char := [btick, btick, btick, 'j', 's', 'o', 'n']

/-- A triple backtick, `"```"`. -/
def fence3 : List Char := [btick, btick, btick]

/-- Leftmost regex match of ``opener ++ \s*(.*?)\s*``` ``` in `cs`:
`group(1)` (whitespace-stripped interior up to the next triple backtick),
or `none` when no occurrence of `opener` is followed by a closing fence. -/
def fenceSearch (opener : List Char) : List Char → Option (List Char)
  | [] => none
  | c :: cs' =>
    if opener.isPrefixOf (c :: cs') then
      match findSub ((c :: cs').drop opener.length) fence3 with
      | some q => some (pyStrip (((c :: cs').drop opener.length).take q))
      | none => fenceSearch opener cs'
    else fenceSearch opener cs'

/-- The fence-stripping step shared by both `parse_json_with_markdown`
variants: if `"```json" in text`, replace the text by the first
json-tagged block's interior (when the regex matches); else if
`"```" in text`, by the first plain block's interior; else leave it. -/
def stripFences (cs : List Char) : List Char :=
  if containsSub cs jsonFenceL then
    match fenceSearch jsonFenceL cs with
    | some g => g
    | none => cs
  else if containsSub cs fence3 then
    match fenceSearch fence3 cs with
    | some g => g
    | none => cs
  else cs

/-- `text.find('{')` / `text[first_brace:]`: drop everything before the
first `{` character, leave the text alone when there is none. -/
def dropToBrace (cs : List Char) : List Char :=
  match findSub cs [lbrace] with
  | some i => cs.drop i
  | none => cs

/-- `parse_json_with_markdown` of
`src/api/langchain_pipeline/chains/compare_chain.py`: strip, strip
fences, drop everything before the first `{`, then
`JSONDecoder.raw_decode` (first complete object, trailing data
ignored).  `none` models the raised `ValueError`. -/
def parse_json_with_markdown_compare (s : String) : Option JValue :=
  (rawDecode (dropToBrace (stripFences (pyStrip s.data)))).map (·.1)

/-- `parse_json_with_markdown` of
`src/api/langchain_pipeline/chains/company_chain.py`: strip, strip
fences, then plain `json.loads` — no first-`{` search and no tolerance
for trailing data. -/
def parse_json_with_markdown_company (s : String) : Option JValue :=
  pyLoads ⟨stripFences (pyStrip s.data)⟩

/-- The inline fence stripping of `ApplicantAnalysisChain.analyze_pdf` /
`analyze_local_pdfs` (`str.find`-based): take the slice between the first
`"```json"` (resp. `"```"`) and the next `"```"` and strip it; when no
closing fence exists, `find` returns `-1` and the Python slice
`text[start:-1]` drops the last character. -/
def applicantExtract (t : List Char) : List Char :=
  if containsSub t jsonFenceL then
    let rest := t.drop ((findSub t jsonFenceL).getD 0 + 7)
    match findSub rest fence3 with
    | some e => pyStrip (rest.take e)
    | none => pyStrip rest.dropLast
  else if containsSub t fence3 then
    let rest := t.drop ((findSub t fence3).getD 0 + 3)
    match findSub rest fence3 with
    | some e => pyStrip (rest.take e)
    | none => pyStrip rest.dropLast
  else t

/-- The applicant chain's full output extraction: fence stripping
followed by strict `json.loads`. -/
def applicantParse (t : String) : Option JValue :=
  pyLoads ⟨applicantExtract t.data⟩

/-! ## Static configuration (`src/api/langchain_pipeline/config.py`) -/

/-- `COMPANY_KEYWORDS`, in declared order. -/
def COMPANY_KEYWORDS : List (String × List String) :=
  [("현대오토에버", ["현대오토에버", "hyundai autoever", "autoever"]),
   ("업스테이지", ["업스테이지", "upstage"]),
   ("토스", ["토스", "toss", "비바리퍼블리카", "viva republica"])]

/-- `COMPANY_SOURCES`, in declared order. -/
def COMPANY_SOURCES : List (String × List String) :=
  [("현대오토에버",
    ["https://career.hyundai-autoever.com/ko/people",
     "https://career.hyundai-autoever.com/ko/life",
     "https://career.hyundai-autoever.com/ko/embeddedsw"]),
   ("업스테이지",
    ["https://www.upstage.ai/about",
     "https://www.upstage.ai/careers"]),
   ("토스",
    ["https://toss.im/career/culture",
     "https://toss.im/career/community/toss"])]

/-- `keyword.lower() in text_lower` for one alias against the already
lowercased text. -/
def kwHit (textLower : List Char) (k : String) : Bool :=
  containsSub textLower (pyLower k.data)

/-- The nested loops of `match_company`: companies in declared order,
aliases in declared order, first alias hit wins the company. -/
def matchCompanyAux (tl : List Char) : List (String × List String) → Option String
  | [] => none
  | (c, kws) :: rest =>
    if kws.any (kwHit tl) then some c else matchCompanyAux tl rest

/-- `match_company(text)`: case-insensitive substring search over
`COMPANY_KEYWORDS`. -/
def match_company (text : String) : Option String :=
  matchCompanyAux (pyLower text.data) COMPANY_KEYWORDS

/-- `get_company_sources(company)`: the company's supplementary URLs,
`[]` for an unknown company (`dict.get` default). -/
def get_company_sources (company : String) : List String :=
  ((COMPANY_SOURCES.find? (fun p => p.1 == company)).map (·.2)).getD []

/-! ## Errors and effect traces

Raised Python exceptions are modelled by `PyErr`; external calls that
matter to the claims are recorded in traces of `Eff`. -/

inductive PyErr where
  | scrapeFail (msg : String)
  | unsupportedCompany
  | malformedOutput
  | paramValidation
  | s3Download (msg : String)
  | fileNotFound (path : String)
  | notPdf (path : String)
  | fileProcessing (what : String)
  | external (msg : String)
  deriving DecidableEq

/-- `str(e)`, where a caller embeds the message of a caught error. -/
def PyErr.msg : PyErr → String
  | .scrapeFail m => m
  | .unsupportedCompany => "지원하지 않는 회사입니다."
  | .malformedOutput => "Expecting value"
  | .paramValidation => "Parameter validation failed"
  | .s3Download m => m
  | .fileNotFound p => "File not found: " ++ p
  | .notPdf p => "Not a PDF file: " ++ p
  | .fileProcessing w => "파일 처리 실패: " ++ w
  | .external m => m

inductive Eff where
  | scrapeCall (url : String)
  | collectCall (scrapedContent : String)
  | analyzeCall
  | s3GetCall
  | uploadCall (remoteName : String)
  | deleteCall (remoteName : String)
  | generateCall (attachedDocs : Nat)
  | compareCall
  | saveCompany
  | saveApplicant
  deriving DecidableEq

/-- The remote uploads recorded in a trace: one entry per handle obtained
on the remote document service. -/
def uploadsOf (tr : List Eff) : List String :=
  tr.filterMap fun e => match e with | .uploadCall n => some n | _ => none

/-- The remote deletions recorded in a trace. -/
def deletesOf (tr : List Eff) : List String :=
  tr.filterMap fun e => match e with | .deleteCall n => some n | _ => none

/-- The provider invocations recorded in a trace. -/
def generatesOf (tr : List Eff) : List Nat :=
  tr.filterMap fun e => match e with | .generateCall n => some n | _ => none

/-- The persistence calls recorded in a trace. -/
def savesOf (tr : List Eff) : List Eff :=
  tr.filter fun e => e = .saveCompany || e = .saveApplicant

/-! ## Remote document handles and the upload/poll loop
(`S3PDFLoader._upload_to_gemini` and `LocalPDFLoader._upload_to_gemini`,
whose bodies are identical) -/

structure GemFile where
  name : String
  uri : String
  displayName : String
  state : String
  deriving DecidableEq

/-- Body of the `while uploaded_file.state == 'PROCESSING' and elapsed <
max_wait_seconds` loop: `st` is the current state, `elapsed` the seconds
waited so far, `k` the number of `files.get` polls made so far, and
`env (k+1)` the state the `(k+1)`-th poll returns.  Yields the final
state and the total number of polls.  The extra fuel argument makes the
recursion structural; `pollLoop` instantiates it with `maxWait -
elapsed`, which dominates the loop (each iteration adds 2 to `elapsed`),
and `pollLoop_eq` below proves the Python loop's defining equation, so
the fuel never changes the result. -/
def pollGo (env : Nat → String) (maxWait : Nat) :
    Nat → String → Nat → Nat → String × Nat
  | 0, st, _, k => (st, k)
  | fuel + 1, st, elapsed, k =>
    if st = "PROCESSING" ∧ elapsed < maxWait then
      pollGo env maxWait fuel (env (k + 1)) (elapsed + 2) (k + 1)
    else (st, k)

/-- The polling loop of `_upload_to_gemini`. -/
def pollLoop (env : Nat → String) (maxWait : Nat) (st : String) (elapsed k : Nat) :
    String × Nat :=
  pollGo env maxWait (maxWait - elapsed) st elapsed k

/-- Outcome of one `files.upload` round trip plus the states its
subsequent `files.get` polls observe. -/
structure UploadCallResult where
  file : Except PyErr GemFile
  statusAt : Nat → String

/-- `_upload_to_gemini(pdf_bytes, filename, wait_for_processing,
max_wait_seconds)`: one upload round trip, then the poll loop; the
returned `GeminiFile` carries the caller's `filename` as display name and
the last observed state.  Also returns the number of polls made. -/
def uploadToGemini (r : UploadCallResult) (filename : String)
    (waitForProcessing : Bool) (maxWait : Nat) : Except PyErr (GemFile × Nat) :=
  match r.file with
  | .error e => .error e
  | .ok f =>
    if waitForProcessing then
      let (st, n) := pollLoop r.statusAt maxWait f.state 0 0
      .ok ({ f with displayName := filename, state := st }, n)
    else
      .ok ({ f with displayName := filename }, 0)

/-! ## Local PDF loader (`local_pdf_loader.py`) -/

/-- The final path component (`Path(p).name` / `s3_key.split('/')[-1]`). -/
def basename (p : String) : String :=
  ⟨(p.data.reverse.takeWhile (· ≠ '/')).reverse⟩

/-- `Path(p).suffix`: the extension (with dot) of the final component,
`""` when it has no dot. -/
def pathSuffix (p : String) : String :=
  let b := (basename p).data
  let ext := b.reverse.takeWhile (· ≠ '.')
  if ext.length = b.length then "" else ⟨'.' :: ext.reverse⟩

structure LocalLoaderOracle where
  fileExists : String → Bool
  upload : Nat → UploadCallResult

/-- `LocalPDFLoader.load_file`: existence check, `.pdf` suffix check,
then `_upload_to_gemini` with `wait_for_processing=True`,
`max_wait_seconds=60`.  The trace records the handle when the upload
round trip succeeded (that is when a remote file exists to clean up). -/
def loadFile (o : LocalLoaderOracle) (callIdx : Nat) (path : String) :
    Except PyErr GemFile × List Eff :=
  if ¬ o.fileExists path then (.error (.fileNotFound path), [])
  else if ¬ (pyLower (pathSuffix path).data = ".pdf".data) then (.error (.notPdf path), [])
  else
    match uploadToGemini (o.upload callIdx) (basename path) true 60 with
    | .error e => (.error e, [])
    | .ok (f, _) => (.ok f, [.uploadCall f.name])

/-- `LocalPDFLoader.load_files`: sequential `load_file` over the paths;
the first failure raises, discarding the handles already accumulated in
the local `gemini_files` list (they stay uploaded: see the trace). -/
def loadFiles (o : LocalLoaderOracle) : List String → Nat →
    Except PyErr (List GemFile) × List Eff
  | [], _ => (.ok [], [])
  | p :: ps, i =>
    match loadFile o i p with
    | (.error e, tr) => (.error e, tr)
    | (.ok f, tr) =>
      match loadFiles o ps (i + 1) with
      | (.error e, tr2) => (.error e, tr ++ tr2)
      | (.ok fs, tr2) => (.ok (f :: fs), tr ++ tr2)

/-- `LocalPDFLoader.delete_files` (each `delete_file` swallows its own
errors and never raises): one remote deletion per handle. -/
def deleteFiles (files : List GemFile) : List Eff :=
  files.map fun f => .deleteCall f.name

structure ApplicantLocalOracle where
  toLoader : LocalLoaderOracle
  generate : Nat → Except PyErr String

/-- `ApplicantAnalysisChain.analyze_local_pdfs`: upload all files (a
failure there propagates with `self._uploaded_files` still `[]`, so the
`finally` block deletes nothing); then the ACTIVE check, the single
provider call with all documents attached, fence stripping and
`json.loads` — with `finally` deleting every file of the assigned list on
all of those paths. -/
def analyzeLocalPdfs (o : ApplicantLocalOracle) (paths : List String) :
    Except PyErr JValue × List Eff :=
  match loadFiles o.toLoader paths 0 with
  | (.error e, tr) => (.error e, tr)
  | (.ok files, tr) =>
    let del := deleteFiles files
    match files.find? (fun f => ¬ (f.state == "ACTIVE")) with
    | some f => (.error (.fileProcessing f.displayName), tr ++ del)
    | none =>
      match o.generate files.length with
      | .error e => (.error e, tr ++ [.generateCall files.length] ++ del)
      | .ok resp =>
        match applicantParse resp with
        | none => (.error .malformedOutput, tr ++ [.generateCall files.length] ++ del)
        | some v => (.ok v, tr ++ [.generateCall files.length] ++ del)

/-! ## S3 PDF loader and the S3-based applicant run
(`s3_pdf_loader.py`, `applicant_chain.py`) -/

/-- What `run_full_analysis` actually passes for `s3_key`: the parameter
is annotated `str` in `run_from_s3` but the orchestrator hands it the
whole `applicant_s3_keys : list[str]`. -/
inductive S3KeyArg where
  | str (k : String)
  | strList (ks : List String)

structure S3Oracle where
  getObject : String → Except PyErr String
  upload : UploadCallResult
  generate : Except PyErr String

/-- `S3PDFLoader._download_from_s3` followed by the raise in
`load_from_s3`: boto3 `get_object` validates its parameters and refuses a
non-string `Key`, which the broad `except Exception` turns into a failed
`S3DownloadResult`, which `load_from_s3` re-raises. -/
def s3Download (o : S3Oracle) (k : S3KeyArg) : Except PyErr (String × String) :=
  match k with
  | .strList _ => .error .paramValidation
  | .str key =>
    match o.getObject key with
    | .error e => .error e
    | .ok bytes => .ok (bytes, basename key)

/-- `S3PDFLoader.load_from_s3`: download then `_upload_to_gemini`
(`wait_for_processing=True`, `max_wait_seconds=60`). -/
def loadFromS3 (o : S3Oracle) (k : S3KeyArg) : Except PyErr GemFile × List Eff :=
  match s3Download o k with
  | .error e => (.error e, [.s3GetCall])
  | .ok (_, fname) =>
    match uploadToGemini o.upload fname true 60 with
    | .error e => (.error e, [.s3GetCall])
    | .ok (f, _) => (.ok f, [.s3GetCall, .uploadCall f.name])

/-- `ApplicantAnalysisChain.analyze_pdf`: load from S3 (a failure leaves
`self._uploaded_file = None`, so the `finally` deletes nothing), the
ACTIVE check, one provider call with the single document, fence stripping
and `json.loads`; `finally` deletes the assigned handle on those paths. -/
def analyzePdf (o : S3Oracle) (k : S3KeyArg) : Except PyErr JValue × List Eff :=
  match loadFromS3 o k with
  | (.error e, tr) => (.error e, tr)
  | (.ok f, tr) =>
    let del := [Eff.deleteCall f.name]
    if ¬ (f.state == "ACTIVE") then
      (.error (.fileProcessing f.state), tr ++ del)
    else
      match o.generate with
      | .error e => (.error e, tr ++ [.generateCall 1] ++ del)
      | .ok resp =>
        match applicantParse resp with
        | none => (.error .malformedOutput, tr ++ [.generateCall 1] ++ del)
        | some v => (.ok v, tr ++ [.generateCall 1] ++ del)

/-- Python `dict[key] = val` on a `JValue.jobj` (replace or append). -/
def jSetField (v : JValue) (key : String) (val : JValue) : JValue :=
  match v with
  | .jobj fs =>
    if fs.any (fun p => p.1 == key) then
      .jobj (fs.map fun p => if p.1 == key then (p.1, val) else p)
    else .jobj (fs ++ [(key, val)])
  | other => other

/-- `ApplicantAnalysisChain.run_from_s3`: `analyze_pdf`, then attach
`_source`, then the optional DB save. -/
def applicantRunFromS3 (o : S3Oracle) (saveToDb : Bool) (k : S3KeyArg) :
    Except PyErr JValue × List Eff :=
  match analyzePdf o k with
  | (.error e, tr) => (.error e, tr)
  | (.ok p, tr) =>
    let p := jSetField p "_source" (.jobj [("type", .jstr "s3_pdf")])
    if saveToDb then (.ok (jSetField p "_id" (.jstr "oid")), tr ++ [.saveApplicant])
    else (.ok p, tr)

/-! ## Headless browser scraper (`browser_scraper.py`) -/

/-- `ScrapeResult` of `base_scraper.py`. -/
structure ScrapeResultM where
  url : String
  content : String
  success : Bool
  errorMessage : String
  deriving DecidableEq

/-- Collapse every maximal run of characters satisfying `p` whose length
is at least `minRun` into `repl` (a run-level model of `re.sub` with
patterns like `\n{3,}`, ` {2,}`, `\t+`). -/
def collapseRun (p : Char → Bool) (minRun : Nat) (repl : List Char) :
    List Char → List Char
  | [] => []
  | c :: cs =>
    if p c then
      (if minRun ≤ (c :: cs.takeWhile p).length then repl else c :: cs.takeWhile p)
        ++ collapseRun p minRun repl (cs.dropWhile p)
    else c :: collapseRun p minRun repl cs
termination_by cs => cs.length
decreasing_by
  all_goals simp only [List.length_cons]
  · exact Nat.lt_succ_of_le (List.Sublist.length_le (List.dropWhile_sublist _))
  · exact Nat.lt_succ_self _

/-- `BrowserScraper._clean_text`: collapse blank-line runs, space runs
and tab runs, then strip each line, drop empty lines, and strip the
result. -/
def cleanText (s : String) : String :=
  let cs := s.data
  let cs := collapseRun (· = '\n') 3 ['\n', '\n'] cs
  let cs := collapseRun (· = ' ') 2 [' '] cs
  let cs := collapseRun (· = '\t') 1 [' '] cs
  let lines := ((String.mk cs).splitOn "\n").map pyStripS |>.filter (· ≠ "")
  pyStripS (String.intercalate "\n" lines)

/-- Outcomes of the external calls one `BrowserScraper.scrape` makes:
lazy browser startup (`start`), `new_page`, `goto`, and the
`page.evaluate` extracting `innerText`. -/
structure PageOracle where
  startup : Except PyErr Unit
  newPage : Except PyErr Unit
  goto : Except PyErr Unit
  innerText : Except PyErr String

structure ScrapeOut where
  result : Except PyErr ScrapeResultM
  pageOpened : Bool
  pageClosed : Bool

/-- `BrowserScraper.scrape(url)`: `await self.start()` stands *before*
the `try` block, so a startup failure propagates as a raised exception;
everything from `new_page` on is inside `try/except/finally`, failures
becoming a `ScrapeResult` with `success=False` and empty content, with
the page (when one was opened) closed in `finally`. -/
def browserScrape (o : PageOracle) (browserStarted : Bool) (url : String) : ScrapeOut :=
  match (if browserStarted then .ok () else o.startup : Except PyErr Unit) with
  | .error e => ⟨.error e, false, false⟩
  | .ok () =>
    match o.newPage with
    | .error e => ⟨.ok ⟨url, "", false, e.msg⟩, false, false⟩
    | .ok () =>
      match o.goto with
      | .error e => ⟨.ok ⟨url, "", false, e.msg⟩, true, true⟩
      | .ok () =>
        match o.innerText with
        | .error e => ⟨.ok ⟨url, "", false, e.msg⟩, true, true⟩
        | .ok raw => ⟨.ok ⟨url, cleanText raw, true, ""⟩, true, true⟩

/-- `BrowserScraper.scrape_multiple`: sequential `scrape` over the list;
after one scrape has run, the browser is started for the rest. -/
def browserScrapeMultiple (o : Nat → PageOracle) (browserStarted : Bool) :
    List String → Nat → Except PyErr (List ScrapeResultM)
  | [], _ => .ok []
  | u :: us, i =>
    match (browserScrape (o i) browserStarted u).result with
    | .error e => .error e
    | .ok r =>
      match browserScrapeMultiple o true us (i + 1) with
      | .error e => .error e
      | .ok rs => .ok (r :: rs)

/-! ## Company analysis chain (`company_chain.py`) -/

/-- Outcomes of the company chain's external calls.  `startup` is the
lazy browser launch consumed by the first scrape; `fetch` the per-URL
scrape outcome once the browser runs (`scrape` captures all later
failures, per `browser_scraper.py`); `collect`/`analyze` the provider's
raw responses; `saveId` the id the DB save returns. -/
structure CompanyOracle where
  startup : Except PyErr Unit
  fetch : String → ScrapeResultM
  collect : String → Except PyErr String
  analyze : JValue → Except PyErr String
  saveId : String

/-- A `=== url ===` document-separator entry of the combined text. -/
def sepEntry (u content : String) : String :=
  "=== " ++ u ++ " ===\n" ++ content

/-- A `=== url (실패) ===` failure-marker entry (used by the
`scrape_urls` helper only). -/
def sepEntryFailed (u errorMessage : String) : String :=
  "=== " ++ u ++ " (실패) ===\n" ++ errorMessage

/-- `CompanyAnalysisChain.scrape_urls(urls)`: combined text with one
entry per URL — successes and failure markers alike.  (This helper is
*not* called by `CompanyAnalysisChain.run`.) -/
def scrape_urls (fetch : String → ScrapeResultM) (urls : List String) : String :=
  String.intercalate "\n\n" (urls.map fun u =>
    let r := fetch u
    if r.success then sepEntry u r.content else sepEntryFailed u r.errorMessage)

/-- The supplementary-source entries `CompanyAnalysisChain.run` actually
accumulates: one entry per *successful* URL; a failed URL is only
printed, not recorded. -/
def runSupplementaryEntries (fetch : String → ScrapeResultM) (urls : List String) :
    List String :=
  urls.filterMap fun u =>
    let r := fetch u
    if r.success then some (sepEntry u r.content) else none

structure CompanyRunOut where
  result : Except PyErr JValue
  /-- The combined text handed to the data-collection stage, when the run
  reaches it. -/
  combined : Option String
  trace : List Eff

/-- `CompanyAnalysisChain.run(job_posting_url)`: primary scrape (the
browser launch may raise; a captured fetch failure raises
`Exception("채용공고 스크래핑 실패: ...")`), `match_company` (no match
raises `UnsupportedCompanyError`), the supplementary-URL loop (failures
absorbed; successful pages appended), concatenation with blank-line
separators, data collection and culture analysis through
`parse_json_with_markdown`, metadata attachment, optional DB save. -/
def companyRun (o : CompanyOracle) (saveToDb : Bool) (url : String) : CompanyRunOut :=
  match o.startup with
  | .error e => ⟨.error e, none, [.scrapeCall url]⟩
  | .ok () =>
    let job := o.fetch url
    if ¬ job.success then
      ⟨.error (.scrapeFail ("채용공고 스크래핑 실패: " ++ job.errorMessage)), none,
        [.scrapeCall url]⟩
    else
      match match_company job.content with
      | none => ⟨.error .unsupportedCompany, none, [.scrapeCall url]⟩
      | some name =>
        let urls := get_company_sources name
        let allContents :=
          ("=== 채용공고: " ++ url ++ " ===\n" ++ job.content)
            :: runSupplementaryEntries o.fetch urls
        let scraped := String.intercalate "\n\n" allContents
        let tr := .scrapeCall url :: (urls.map Eff.scrapeCall) ++ [.collectCall scraped]
        match o.collect scraped with
        | .error e => ⟨.error e, some scraped, tr⟩
        | .ok resp1 =>
          match parse_json_with_markdown_company resp1 with
          | none => ⟨.error .malformedOutput, some scraped, tr⟩
          | some data =>
            match o.analyze data with
            | .error e => ⟨.error e, some scraped, tr ++ [.analyzeCall]⟩
            | .ok resp2 =>
              match parse_json_with_markdown_company resp2 with
              | none => ⟨.error .malformedOutput, some scraped, tr ++ [.analyzeCall]⟩
              | some culture =>
                let result := jSetField culture "_meta"
                  (.jobj [("company_name", .jstr name),
                          ("job_posting_url", .jstr url),
                          ("source_urls", .jarr ((url :: urls).map .jstr))])
                if saveToDb then
                  ⟨.ok (jSetField result "_id" (.jstr o.saveId)), some scraped,
                    tr ++ [.analyzeCall, .saveCompany]⟩
                else
                  ⟨.ok result, some scraped, tr ++ [.analyzeCall]⟩

/-! ## Orchestrator (`src/api/services/pipeline.py`, `run_full_analysis`)

`asyncio.gather(..., return_exceptions=True)` lets both branches run to
completion and returns their outcomes in call order; the orchestrator
then re-raises the company branch's exception first, then the
applicant's, and only when both succeeded calls the comparison stage.
The comparison call is kept opaque behind `CompareOracle` (the source
wires it through two naming slips — the import asks for
`CultureFitCompareChain` where the class is `CultureCompareChain`, and
the call passes keywords `company_culture`/`applicant_profile` that
`run`'s signature does not declare; no claim under verification depends
on the comparison stage's own behavior). -/

structure CompareOracle where
  outcome : JValue → JValue → Except PyErr JValue

structure FullOut where
  result : Except PyErr (JValue × JValue × JValue)
  compareInvoked : Bool
  trace : List Eff

/-- `run_full_analysis(company_url, applicant_s3_keys, ...)`: note the
applicant branch receives the *list* of keys as `run_from_s3`'s single
`s3_key` argument, exactly as the source calls it. -/
def runFullAnalysis (co : CompanyOracle) (ao : S3Oracle) (cmp : CompareOracle)
    (saveToDb : Bool) (url : String) (keys : List String) : FullOut :=
  let c := companyRun co saveToDb url
  let a := applicantRunFromS3 ao saveToDb (.strList keys)
  let btr := c.trace ++ a.2
  match c.result with
  | .error e => ⟨.error e, false, btr⟩
  | .ok cv =>
    match a.1 with
    | .error e => ⟨.error e, false, btr⟩
    | .ok av =>
      match cmp.outcome cv av with
      | .error e => ⟨.error e, true, btr ++ [.compareCall]⟩
      | .ok mv => ⟨.ok (cv, av, mv), true, btr ++ [.compareCall]⟩

/-! ## Comparison confidence (modelled from the spec)

Modelled from the spec: the comparison stage's confidence rule.  No
executable code of the repository computes it — the rule lives in the
instruction text `SYSTEM_MESSAGE` of
`src/api/langchain_pipeline/prompts/culture_compare.py` ("Start at 1.0 /
Subtract 0.10 for each unknown axis / Subtract 0.05 for each axis with
evidence on only one side / Clamp to [0, 1]"), which the provider is
asked to follow; the spec states the same rule as the
`ComparisonRecord` invariant. -/

inductive AxisStatus where
  | scored
  | unknown
  deriving DecidableEq

/-- One shared comparison axis as the confidence rule sees it. -/
structure AxisCmp where
  status : AxisStatus
  companyEvidence : Bool
  developerEvidence : Bool

/-- Evidence on exactly one side. -/
def AxisCmp.oneSided (a : AxisCmp) : Bool :=
  a.companyEvidence != a.developerEvidence

def clamp01 (q : ℚ) : ℚ := max 0 (min 1 q)

/-- The confidence of a comparison over its shared axes. -/
def comparisonConfidence (axes : List AxisCmp) : ℚ :=
  clamp01 (1 - (axes.countP (fun a => a.status = AxisStatus.unknown)) * (1 / 10)
             - (axes.countP (fun a => a.oneSided)) * (1 / 20))

/-- Observed remote states during one upload's polling: the state after
the upload round trip, then the state each `files.get` returns. -/
def pollObs (init : String) (env : Nat → String) : Nat → String
  | 0 => init
  | k + 1 => env (k + 1)

/-- Reference definition of the Organization Matcher, following the
spec's words: "iterate organizations in a fixed declared order ...
return the first organization for which any alias substring is found"
(case-insensitive). -/
def matchCompanySpec (text : String) : Option String :=
  (COMPANY_KEYWORDS.find? (fun p => p.2.any (kwHit (pyLower text.data)))).map (·.1)

/-! ## Concrete fixtures for witnesses and counterexamples -/

/-- An upload call that immediately yields an ACTIVE remote file. -/
def upOk (n : String) : UploadCallResult :=
  ⟨.ok ⟨n, "uri-" ++ n, "", "ACTIVE"⟩, fun _ => "ACTIVE"⟩

/-- Local-loader oracle for the partial-batch scenario: the résumé file
exists, the portfolio file does not; every upload round trip succeeds. -/
def leakLoaderO : ApplicantLocalOracle :=
  ⟨⟨fun p => p == "profile/resume.pdf",
    fun i => if i == 0 then upOk "files/f0" else upOk "files/f1"⟩,
   fun _ => .ok "\x7b\x7d"⟩

def tossJobUrl : String := "https://jobs.example.com/post/1"

/-- Company oracle: the primary posting mentions 토스; the first
supplementary URL times out, the second succeeds; the provider responds
with well-formed JSON. -/
def coTossO : CompanyOracle :=
  { startup := .ok ()
    fetch := fun u =>
      if u == tossJobUrl then ⟨u, "토스 채용 공고", true, ""⟩
      else if u == "https://toss.im/career/culture" then
        ⟨u, "", false, "Timeout 30000ms exceeded"⟩
      else ⟨u, "토스 문화 페이지", true, ""⟩
    collect := fun _ => .ok "\x7b\x7d"
    analyze := fun _ => .ok "\x7b\x7d"
    saveId := "company-oid-1" }

/-- The combined text `companyRun coTossO false tossJobUrl` hands to the
data-collection stage (computed; asserted in the C4 counterexample). -/
def tossCombined : String :=
  "=== 채용공고: https://jobs.example.com/post/1 ===\n토스 채용 공고\n\n=== https://toss.im/career/community/toss ===\n토스 문화 페이지"

/-- S3/provider oracle for the applicant branch. -/
def aoS3O : S3Oracle :=
  ⟨fun _ => .ok "PDFBYTES", upOk "files/s0", .ok "\x7b\x7d"⟩

def cmpOkO : CompareOracle := ⟨fun _ _ => .ok (.jobj [])⟩

def s3Keys2 : List String :=
  ["applicants/user123/resume.pdf", "applicants/user123/portfolio.pdf"]

/-- Page oracle whose lazy browser startup fails. -/
def startFailO : PageOracle :=
  ⟨.error (.external "browser launch failed"), .ok (), .ok (), .ok "hello"⟩

/-- Page oracle where every call succeeds. -/
def pageOkO : PageOracle := ⟨.ok (), .ok (), .ok (), .ok "hello page"⟩

/-- Six comparison axes: two unknown, one scored with evidence on one
side only, three scored with evidence on both sides. -/
def sixAxes : List AxisCmp :=
  [⟨.scored, true, true⟩, ⟨.scored, true, true⟩, ⟨.scored, true, true⟩,
   ⟨.unknown, true, true⟩, ⟨.unknown, true, true⟩, ⟨.scored, true, false⟩]

/-! ## Fence wrapper fixtures

`jsonOpenS ++ s ++ fenceCloseS` is `s` wrapped in a json-tagged fence on
its own lines; `fenceOpenS ++ s ++ fenceCloseS` the plain-fence wrap. -/

/-- `"```json\n"`. -/
def jsonOpenS : String := ⟨jsonFenceL ++ ['\n']⟩

/-- `"```\n"`. -/
def fenceOpenS : String := ⟨fence3 ++ ['\n']⟩

/-- `"\n```"`. -/
def fenceCloseS : String := ⟨'\n' :: fence3⟩

/-- The serialization `\x7b"a": "```"\x7d` of a single JSON object whose
only field holds the three-character backtick string — a valid JSON
text whose string literal contains a triple backtick. -/
def sTicky : String :=
  ⟨[lbrace, '"', 'a', '"', ':', ' ', '"', btick, btick, btick, '"', rbrace]⟩

/-- The value `sTicky` serializes. -/
def vTicky : JValue := .jobj [("a", .jstr ⟨fence3⟩)]

/-! ## Helper lemmas on the string primitives -/

theorem isPrefixOf_append_self (a b : List Char) : a.isPrefixOf (a ++ b) = true := by
  induction a with
  | nil => simp
  | cons c cs ih => simpa [List.isPrefixOf] using ih

theorem isPrefixOf_refl_char (a : List Char) : a.isPrefixOf a = true := by
  simpa using isPrefixOf_append_self a []

theorem findSub_of_isPrefixOf {cs pat : List Char} (h : pat.isPrefixOf cs = true) :
    findSub cs pat = some 0 := by
  cases cs with
  | nil => simp [findSub, h]
  | cons c cs' => simp [findSub, h]

theorem isPrefixOf_cons_ne {h : Char} {pat cs : List Char} {c : Char}
    (hne : h ≠ c) : (h :: pat).isPrefixOf (c :: cs) = false := by
  simp [List.isPrefixOf, List.cons_prefix_cons]
  intro hc
  exact absurd hc hne

theorem findSub_append_boundary {h : Char} {pat : List Char} (a b : List Char)
    (hh : pat.head? = some h) (ha : h ∉ a) (hb : pat.isPrefixOf b = true) :
    findSub (a ++ b) pat = some a.length := by
  induction a with
  | nil => simpa using findSub_of_isPrefixOf hb
  | cons c a' ih =>
    have hhc : h ≠ c := by
      intro hEq
      exact ha (hEq ▸ List.mem_cons_self c a')
    have ha' : h ∉ a' := fun hmem => ha (List.mem_cons_of_mem c hmem)
    obtain ⟨pat', hp⟩ : ∃ pat', pat = h :: pat' := by
      cases pat with
      | nil => simp at hh
      | cons x xs => exact ⟨xs, by simpa using (by simpa using hh : x = h) ▸ rfl⟩
    have hpre : pat.isPrefixOf (c :: (a' ++ b)) = false := by
      rw [hp]; exact isPrefixOf_cons_ne hhc
    simp [findSub, hpre, ih ha']

theorem containsSub_cons (c : Char) (cs pat : List Char) :
    containsSub (c :: cs) pat = (pat.isPrefixOf (c :: cs) || containsSub cs pat) := by
  by_cases h : pat.isPrefixOf (c :: cs) = true
  · simp [containsSub, findSub, h]
  · have h' : pat.isPrefixOf (c :: cs) = false := by
      cases hb : pat.isPrefixOf (c :: cs) with
      | false => rfl
      | true => exact absurd hb h
    simp [containsSub, findSub, h', Option.isSome_map]

theorem containsSub_append_right {h : Char} {pat : List Char} (a b : List Char)
    (hh : pat.head? = some h) (ha : h ∉ a) :
    containsSub (a ++ b) pat = containsSub b pat := by
  induction a with
  | nil => rfl
  | cons c a' ih =>
    have hhc : h ≠ c := by
      intro hEq
      exact ha (hEq ▸ List.mem_cons_self c a')
    have ha' : h ∉ a' := fun hmem => ha (List.mem_cons_of_mem c hmem)
    obtain ⟨pat', hp⟩ : ∃ pat', pat = h :: pat' := by
      cases pat with
      | nil => simp at hh
      | cons x xs => exact ⟨xs, by simpa using (by simpa using hh : x = h) ▸ rfl⟩
    have hpre : pat.isPrefixOf (c :: (a' ++ b)) = false := by
      rw [hp]; exact isPrefixOf_cons_ne hhc
    rw [List.cons_append, containsSub_cons, hpre, ih ha']
    simp

theorem containsSub_eq_false_of_head_notin {h : Char} {pat cs : List Char}
    (hh : pat.head? = some h) (ha : h ∉ cs) : containsSub cs pat = false := by
  have := containsSub_append_right cs [] hh ha
  rw [List.append_nil] at this
  rw [this]
  cases pat with
  | nil => simp at hh
  | cons x xs => simp [containsSub, findSub, List.isPrefixOf]

theorem containsSub_mono_pattern {p1 p2 cs : List Char}
    (hp : p2.isPrefixOf p1 = true) (h : containsSub cs p1 = true) :
    containsSub cs p2 = true := by
  induction cs with
  | nil =>
    have hp1 : p1 = [] := by
      by_cases hb : p1 = []
      · exact hb
      · exfalso
        have hb' : p1.isPrefixOf ([] : List Char) = false := by
          cases p1 with
          | nil => exact absurd rfl hb
          | cons x xs => rfl
        simp [containsSub, findSub, hb'] at h
    subst hp1
    have hp2 : p2 = [] := by simpa [List.isPrefixOf_iff_prefix] using hp
    subst hp2
    simp [containsSub, findSub]
  | cons c cs' ih =>
    rw [containsSub_cons] at h
    rcases Bool.or_eq_true_iff.mp h with h1 | h2
    · have : p2.isPrefixOf (c :: cs') = true := by
        rw [List.isPrefixOf_iff_prefix] at hp h1 ⊢
        exact hp.trans h1
      rw [containsSub_cons, this]
      simp
    · rw [containsSub_cons, ih h2]
      simp

theorem sublist_pyStrip (cs : List Char) : List.Sublist (pyStrip cs) cs := by
  have h1 : List.Sublist (stripLeft cs) cs := List.dropWhile_sublist _
  have h2 : List.Sublist (stripRight (stripLeft cs)) (stripLeft cs) := by
    have h0 := List.dropWhile_sublist (l := (stripLeft cs).reverse) isPyWs
    have h3 := h0.reverse
    simpa [stripRight] using h3
  exact h2.trans h1

theorem mem_of_mem_pyStrip {c : Char} {cs : List Char} (h : c ∈ pyStrip cs) :
    c ∈ cs := (sublist_pyStrip cs).mem h

theorem stripFences_eq_self {cs : List Char} (h : containsSub cs fence3 = false) :
    stripFences cs = cs := by
  have hj : containsSub cs jsonFenceL = false := by
    by_contra hc
    rw [Bool.not_eq_false] at hc
    have : containsSub cs fence3 = true :=
      containsSub_mono_pattern (by decide) hc
    rw [this] at h
    exact Bool.true_eq_false.mp h
  unfold stripFences
  rw [hj, h]
  simp

theorem containsSub_eq_false_of_no_btick {pat cs : List Char}
    (hh : pat.head? = some btick) (ha : btick ∉ cs) : containsSub cs pat = false :=
  containsSub_eq_false_of_head_notin hh ha

theorem stripLeft_eq_of_head {c : Char} (cs : List Char) (h : isPyWs c = false) :
    stripLeft (c :: cs) = c :: cs := by
  simp [stripLeft, List.dropWhile_cons, h]

theorem stripLeft_append_of_head {a mid : List Char} {m : Char}
    (hm : mid.head? = some m) (hws : isPyWs m = false) :
    stripLeft (a ++ mid) = stripLeft a ++ mid := by
  induction a with
  | nil =>
    obtain ⟨rest, hr⟩ : ∃ rest, mid = m :: rest := by
      cases mid with
      | nil => simp at hm
      | cons x xs => exact ⟨xs, by simpa using (by simpa using hm : x = m) ▸ rfl⟩
    subst hr
    simpa [stripLeft] using stripLeft_eq_of_head rest hws
  | cons c a' ih =>
    by_cases hc : isPyWs c = true
    · simp [stripLeft, List.dropWhile_cons, hc] at ih ⊢
      exact ih
    · rw [Bool.not_eq_true] at hc
      simp [stripLeft, List.dropWhile_cons, hc]

theorem stripRight_eq_of_getLast {l : List Char} {c : Char}
    (hl : l.getLast? = some c) (hws : isPyWs c = false) :
    stripRight l = l := by
  have hrev : l.reverse.head? = some c := by
    rw [List.head?_reverse]
    exact hl
  obtain ⟨rest, hr⟩ : ∃ rest, l.reverse = c :: rest := by
    cases hx : l.reverse with
    | nil => rw [hx] at hrev; simp at hrev
    | cons x xs =>
      rw [hx] at hrev
      exact ⟨xs, by simpa using (by simpa using hrev : x = c) ▸ rfl⟩
  unfold stripRight
  rw [hr, List.dropWhile_cons, if_neg (by simp [hws]), ← hr, List.reverse_reverse]

theorem getLast?_append_right {a mid : List Char} (h : mid ≠ []) :
    (a ++ mid).getLast? = mid.getLast? := by
  cases mid with
  | nil => exact absurd rfl h
  | cons m rest => exact List.getLast?_append_cons a m rest

/-- `pyStrip` of leading junk followed by a block that starts and ends
with non-whitespace: the junk's indentation goes, the block stays. -/
theorem pyStrip_append_block {a mid : List Char} {m z : Char}
    (hm : mid.head? = some m) (hmws : isPyWs m = false)
    (hz : mid.getLast? = some z) (hzws : isPyWs z = false) :
    pyStrip (a ++ mid) = stripLeft a ++ mid := by
  have hne : mid ≠ [] := by
    intro hEq
    rw [hEq] at hm
    simp at hm
  unfold pyStrip
  rw [stripLeft_append_of_head hm hmws]
  exact stripRight_eq_of_getLast
    (by rw [getLast?_append_right hne]; exact hz) hzws

theorem eq_cons_of_head {cs : List Char} {c : Char} (h : cs.head? = some c) :
    ∃ t, cs = c :: t := by
  cases cs with
  | nil => simp at h
  | cons x xs =>
    simp at h
    exact ⟨xs, by rw [h]⟩

/-- Unfolding equation of `fenceSearch` on a nonempty text. -/
theorem fenceSearch_cons (opener : List Char) (c : Char) (cs' : List Char) :
    fenceSearch opener (c :: cs') =
      if opener.isPrefixOf (c :: cs') then
        match findSub ((c :: cs').drop opener.length) fence3 with
        | some q => some (pyStrip (((c :: cs').drop opener.length).take q))
        | none => fenceSearch opener cs'
      else fenceSearch opener cs' := rfl

/-- When the text begins with the opener and a closing fence follows,
the regex group is the whitespace-stripped slice up to that fence. -/
theorem fenceSearch_opener_first {q : Nat} {c : Char} {op' R : List Char}
    (hfind : findSub R fence3 = some q) :
    fenceSearch (c :: op') ((c :: op') ++ R) = some (pyStrip (R.take q)) := by
  rw [List.cons_append, fenceSearch_cons]
  have hpre : (c :: op').isPrefixOf (c :: (op' ++ R)) = true := by
    have h0 := isPrefixOf_append_self (c :: op') R
    rwa [List.cons_append] at h0
  rw [if_pos hpre]
  have hdrop : (c :: (op' ++ R)).drop (c :: op').length = R := by
    rw [← List.cons_append, List.drop_left]
  rw [hdrop, hfind]

theorem stripLeft_cons_ws {c : Char} (cs : List Char) (h : isPyWs c = true) :
    stripLeft (c :: cs) = stripLeft cs := by
  simp [stripLeft, List.dropWhile_cons, h]

theorem stripRight_append_ws {c : Char} (x : List Char) (h : isPyWs c = true) :
    stripRight (x ++ [c]) = stripRight x := by
  unfold stripRight
  rw [List.reverse_append]
  simp [List.dropWhile_cons, h]

/-- `pyStrip` of a newline-wrapped block that starts and ends with
non-whitespace characters. -/
theorem pyStrip_nlWrap {mid : List Char} {m z : Char}
    (hm : mid.head? = some m) (hmws : isPyWs m = false)
    (hz : mid.getLast? = some z) (hzws : isPyWs z = false) :
    pyStrip ('\n' :: (mid ++ ['\n'])) = mid := by
  obtain ⟨t, ht⟩ := eq_cons_of_head hm
  unfold pyStrip
  rw [stripLeft_cons_ws _ (by decide)]
  have h1 : stripLeft (mid ++ ['\n']) = mid ++ ['\n'] := by
    rw [ht, List.cons_append]
    exact stripLeft_eq_of_head _ hmws
  rw [h1, stripRight_append_ws _ (by decide)]
  exact stripRight_eq_of_getLast hz hzws

/-- Position of the closing fence in the tail `'\n' ++ s ++ '\n' ++ "```"`
of a fenced block whose body has no backtick. -/
theorem findSub_close_fence {s : List Char} (hb : btick ∉ s) :
    findSub ('\n' :: (s ++ '\n' :: fence3)) fence3 = some (s.length + 2) := by
  have hsplit : '\n' :: (s ++ '\n' :: fence3) = (('\n' :: s) ++ ['\n']) ++ fence3 := by
    simp
  rw [hsplit]
  have hres := findSub_append_boundary (h := btick) (('\n' :: s) ++ ['\n']) fence3
    (show fence3.head? = some btick from rfl)
    (by
      intro hmem
      rcases List.mem_append.mp hmem with h | h
      · rcases List.mem_cons.mp h with h | h
        · exact absurd h.symm (by decide)
        · exact hb h
      · rcases List.mem_cons.mp h with h | h
        · exact absurd h.symm (by decide)
        · simp at h)
    (isPrefixOf_refl_char fence3)
  rw [hres]
  have hlen : (('\n' :: s) ++ ['\n']).length = s.length + 2 := by
    simp only [List.length_append, List.length_cons, List.length_nil]
  rw [hlen]

theorem take_close_fence (s : List Char) :
    (('\n' :: (s ++ '\n' :: fence3)).take (s.length + 2)) = '\n' :: (s ++ ['\n']) := by
  have hsplit : '\n' :: (s ++ '\n' :: fence3) = ('\n' :: (s ++ ['\n'])) ++ fence3 := by
    simp
  have hlen : ('\n' :: (s ++ ['\n'])).length = s.length + 2 := by
    simp
  rw [hsplit, ← hlen, List.take_left]

/-- `(a ++ b).data = a.data ++ b.data` (string append is list append). -/
theorem strData_append (a b : String) : (a ++ b).data = a.data ++ b.data := rfl

/-- Core behavior of the compare-chain extractor on fence-free text:
leading `{`-free prose is discarded, and `raw_decode` takes the first
complete JSON value, ignoring whatever it leaves unconsumed. -/
theorem compare_extract_core {pre mid rest : List Char} {v : JValue}
    (hb1 : btick ∉ pre) (hb2 : btick ∉ mid) (h3 : lbrace ∉ pre)
    (h4 : mid.head? = some lbrace)
    (h5 : ∃ z, mid.getLast? = some z ∧ isPyWs z = false)
    (h6 : rawDecode mid = some (v, rest)) :
    parse_json_with_markdown_compare ⟨pre ++ mid⟩ = some v := by
  obtain ⟨z, hz, hzws⟩ := h5
  have hstrip : pyStrip (pre ++ mid) = stripLeft pre ++ mid :=
    pyStrip_append_block h4 (by decide) hz hzws
  have hbs : btick ∉ stripLeft pre ++ mid := by
    intro hmem
    rcases List.mem_append.mp hmem with h | h
    · exact hb1 ((List.dropWhile_sublist _).mem h)
    · exact hb2 h
  have hf : containsSub (stripLeft pre ++ mid) fence3 = false :=
    containsSub_eq_false_of_head_notin (show fence3.head? = some btick from rfl) hbs
  have hsf := stripFences_eq_self hf
  have hpre : lbrace ∉ stripLeft pre := fun hm => h3 ((List.dropWhile_sublist _).mem hm)
  obtain ⟨t, ht⟩ := eq_cons_of_head h4
  have hbrace : [lbrace].isPrefixOf mid = true := by
    rw [ht]; simp [List.isPrefixOf]
  have hfind : findSub (stripLeft pre ++ mid) [lbrace] = some (stripLeft pre).length :=
    findSub_append_boundary _ _ (show ([lbrace] : List Char).head? = some lbrace from rfl)
      hpre hbrace
  have hdtb : dropToBrace (stripLeft pre ++ mid) = mid := by
    unfold dropToBrace
    rw [hfind]
    exact List.drop_left _ _
  suffices hgoal :
      (rawDecode (dropToBrace (stripFences (pyStrip (pre ++ mid))))).map (·.1) = some v by
    exact hgoal
  rw [hstrip, hsf, hdtb, h6]
  rfl

/-- `json.loads` on text that is exactly one JSON value starting with `{`. -/
theorem pyLoads_exact {s : List Char} {v : JValue}
    (h4 : s.head? = some lbrace) (h6 : rawDecode s = some (v, [])) :
    pyLoads ⟨s⟩ = some v := by
  obtain ⟨t, ht⟩ := eq_cons_of_head h4
  have hdw : s.dropWhile isJsonWs = s := by
    rw [ht, List.dropWhile_cons, if_neg (by decide)]
  suffices hgoal :
      (match rawDecode (s.dropWhile isJsonWs) with
        | none => none
        | some (v, rest) => if rest.dropWhile isJsonWs = [] then some v else none)
        = some v by
    exact hgoal
  rw [hdw, h6]
  simp

/-- No `"```json"` occurs in a plain-fenced block whose body has no
backtick: the four leading characters are `` ``` `` then a newline, and
no other backtick precedes the closing fence, which is final. -/
theorem noJsonFence_plainWrap {s : List Char} (hb : btick ∉ s) :
    containsSub (fence3 ++ '\n' :: (s ++ '\n' :: fence3)) jsonFenceL = false := by
  have hnj : ('\n' : Char) ≠ btick := by decide
  have hstep : ∀ cs : List Char, jsonFenceL.isPrefixOf (btick :: btick :: '\n' :: cs) = false := by
    intro cs
    simp [jsonFenceL, List.isPrefixOf]
    all_goals
      intro h
      exact absurd h (by decide)
  have hstep2 : ∀ cs : List Char, jsonFenceL.isPrefixOf (btick :: '\n' :: cs) = false := by
    intro cs
    simp [jsonFenceL, List.isPrefixOf]
    all_goals
      intro h
      exact absurd h (by decide)
  have hstep3 : ∀ cs : List Char, jsonFenceL.isPrefixOf ('\n' :: cs) = false := by
    intro cs
    simp [jsonFenceL, List.isPrefixOf]
    all_goals
      intro h
      exact absurd h (by decide)
  have hstep0 : ∀ cs : List Char,
      jsonFenceL.isPrefixOf (btick :: btick :: btick :: '\n' :: cs) = false := by
    intro cs
    simp [jsonFenceL, List.isPrefixOf]
    all_goals
      intro h
      exact absurd h (by decide)
  show containsSub (btick :: btick :: btick :: '\n' :: (s ++ '\n' :: fence3)) jsonFenceL = false
  rw [containsSub_cons, hstep0, containsSub_cons, hstep, containsSub_cons, hstep2,
    containsSub_cons, hstep3]
  have htail : containsSub (s ++ '\n' :: fence3) jsonFenceL
      = containsSub ('\n' :: fence3) jsonFenceL := by
    have hsplit : s ++ '\n' :: fence3 = s ++ ('\n' :: fence3) := rfl
    exact containsSub_append_right s ('\n' :: fence3)
      (show jsonFenceL.head? = some btick from rfl) hb
  rw [htail]
  have hfin : containsSub ('\n' :: fence3) jsonFenceL = false := by decide
  rw [hfin]
  simp

theorem stripFences_json_branch {T g : List Char}
    (hc : containsSub T jsonFenceL = true)
    (hf : fenceSearch jsonFenceL T = some g) : stripFences T = g := by
  simp [stripFences, hc, hf]

theorem stripFences_plain_branch {T g : List Char}
    (hcj : containsSub T jsonFenceL = false)
    (hc3 : containsSub T fence3 = true)
    (hf : fenceSearch fence3 T = some g) : stripFences T = g := by
  simp [stripFences, hcj, hc3, hf]

theorem dropToBrace_of_head {s : List Char} (h4 : s.head? = some lbrace) :
    dropToBrace s = s := by
  obtain ⟨t, ht⟩ := eq_cons_of_head h4
  unfold dropToBrace
  rw [findSub_of_isPrefixOf (by rw [ht]; simp [List.isPrefixOf])]
  simp

/-- A fenced block `opener ++ "\n" ++ s ++ "\n```"` starts and ends with
a backtick, so Python's outer `strip()` leaves it unchanged. -/
theorem pyStrip_btickWrap (opener s : List Char) (hop : opener.head? = some btick) :
    pyStrip (opener ++ ('\n' :: (s ++ '\n' :: fence3)))
      = opener ++ ('\n' :: (s ++ '\n' :: fence3)) := by
  obtain ⟨t, ht⟩ := eq_cons_of_head hop
  have hhead : (opener ++ ('\n' :: (s ++ '\n' :: fence3))).head? = some btick := by
    rw [ht]; rfl
  have hlast : (opener ++ ('\n' :: (s ++ '\n' :: fence3))).getLast? = some btick := by
    have hsplit : opener ++ ('\n' :: (s ++ '\n' :: fence3))
        = ((opener ++ ('\n' :: s)) ++ ['\n']) ++ fence3 := by
      simp
    rw [hsplit, getLast?_append_right (by simp [fence3])]
    rfl
  have h := pyStrip_append_block (a := ([] : List Char)) hhead (by decide) hlast (by decide)
  simpa using h

/-- The fence search on a well-formed json-tagged block whose body has no
backtick: the group is the stripped body. -/
theorem fenceSearch_jsonWrap {s : List Char} {m z : Char}
    (hb : btick ∉ s) (h4 : s.head? = some m) (hmws : isPyWs m = false)
    (hz : s.getLast? = some z) (hzws : isPyWs z = false) :
    fenceSearch jsonFenceL (jsonFenceL ++ ('\n' :: (s ++ '\n' :: fence3))) = some s := by
  have hfind := findSub_close_fence hb
  have h := @fenceSearch_opener_first (s.length + 2) btick
    [btick, btick, 'j', 's', 'o', 'n'] ('\n' :: (s ++ '\n' :: fence3)) hfind
  rw [show (btick :: [btick, btick, 'j', 's', 'o', 'n'] : List Char) = jsonFenceL from rfl] at h
  rw [h, take_close_fence]
  rw [pyStrip_nlWrap h4 hmws hz hzws]

/-- The fence search on a well-formed plain block whose body has no
backtick. -/
theorem fenceSearch_plainWrap {s : List Char} {m z : Char}
    (hb : btick ∉ s) (h4 : s.head? = some m) (hmws : isPyWs m = false)
    (hz : s.getLast? = some z) (hzws : isPyWs z = false) :
    fenceSearch fence3 (fence3 ++ ('\n' :: (s ++ '\n' :: fence3))) = some s := by
  have hfind := findSub_close_fence hb
  have h := @fenceSearch_opener_first (s.length + 2) btick
    [btick, btick] ('\n' :: (s ++ '\n' :: fence3)) hfind
  rw [show (btick :: [btick, btick] : List Char) = fence3 from rfl] at h
  rw [h, take_close_fence]
  rw [pyStrip_nlWrap h4 hmws hz hzws]

theorem containsSub_of_opener (opener R : List Char) (hop : opener ≠ []) :
    containsSub (opener ++ R) opener = true := by
  unfold containsSub
  rw [findSub_of_isPrefixOf (isPrefixOf_append_self opener R)]
  rfl

/-- Compare-chain extractor on a json-tagged fenced object. -/
theorem compare_extract_jsonfenced {s : String} {v : JValue}
    (hb : btick ∉ s.data) (h4 : s.data.head? = some lbrace)
    (hz : s.data.getLast? = some rbrace)
    (h6 : rawDecode s.data = some (v, [])) :
    parse_json_with_markdown_compare (jsonOpenS ++ s ++ fenceCloseS) = some v := by
  have hdata : (jsonOpenS ++ s ++ fenceCloseS).data
      = jsonFenceL ++ ('\n' :: (s.data ++ '\n' :: fence3)) := by
    rw [strData_append, strData_append]
    show (jsonFenceL ++ ['\n']) ++ s.data ++ ('\n' :: fence3) = _
    simp
  have hps := pyStrip_btickWrap jsonFenceL s.data rfl
  have hcj : containsSub (jsonFenceL ++ ('\n' :: (s.data ++ '\n' :: fence3))) jsonFenceL
      = true := containsSub_of_opener _ _ (by simp [jsonFenceL])
  have hfs := fenceSearch_jsonWrap hb h4 (by decide) hz (by decide)
  have hsf := stripFences_json_branch hcj hfs
  have hdb := dropToBrace_of_head h4
  suffices hgoal :
      (rawDecode (dropToBrace (stripFences (pyStrip
        ((jsonOpenS ++ s ++ fenceCloseS).data))))).map (·.1) = some v by
    exact hgoal
  rw [hdata, hps, hsf, hdb, h6]
  rfl

/-- Compare-chain extractor on a plain fenced object. -/
theorem compare_extract_plainfenced {s : String} {v : JValue}
    (hb : btick ∉ s.data) (h4 : s.data.head? = some lbrace)
    (hz : s.data.getLast? = some rbrace)
    (h6 : rawDecode s.data = some (v, [])) :
    parse_json_with_markdown_compare (fenceOpenS ++ s ++ fenceCloseS) = some v := by
  have hdata : (fenceOpenS ++ s ++ fenceCloseS).data
      = fence3 ++ ('\n' :: (s.data ++ '\n' :: fence3)) := by
    rw [strData_append, strData_append]
    show (fence3 ++ ['\n']) ++ s.data ++ ('\n' :: fence3) = _
    simp
  have hps := pyStrip_btickWrap fence3 s.data rfl
  have hcj : containsSub (fence3 ++ ('\n' :: (s.data ++ '\n' :: fence3))) jsonFenceL
      = false := noJsonFence_plainWrap hb
  have hc3 : containsSub (fence3 ++ ('\n' :: (s.data ++ '\n' :: fence3))) fence3
      = true := containsSub_of_opener _ _ (by simp [fence3])
  have hfs := fenceSearch_plainWrap hb h4 (by decide) hz (by decide)
  have hsf := stripFences_plain_branch hcj hc3 hfs
  have hdb := dropToBrace_of_head h4
  suffices hgoal :
      (rawDecode (dropToBrace (stripFences (pyStrip
        ((fenceOpenS ++ s ++ fenceCloseS).data))))).map (·.1) = some v by
    exact hgoal
  rw [hdata, hps, hsf, hdb, h6]
  rfl

theorem data_jsonWrap (s : String) :
    (jsonOpenS ++ s ++ fenceCloseS).data
      = jsonFenceL ++ ('\n' :: (s.data ++ '\n' :: fence3)) := by
  rw [strData_append, strData_append]
  show (jsonFenceL ++ ['\n']) ++ s.data ++ ('\n' :: fence3) = _
  simp

theorem data_plainWrap (s : String) :
    (fenceOpenS ++ s ++ fenceCloseS).data
      = fence3 ++ ('\n' :: (s.data ++ '\n' :: fence3)) := by
  rw [strData_append, strData_append]
  show (fence3 ++ ['\n']) ++ s.data ++ ('\n' :: fence3) = _
  simp

/-- The applicant chain's `find`-based fence stripping leaves
backtick-free text alone. -/
theorem applicantExtract_plain {t : List Char} (hb : btick ∉ t) :
    applicantExtract t = t := by
  have h1 : containsSub t jsonFenceL = false :=
    containsSub_eq_false_of_head_notin (show jsonFenceL.head? = some btick from rfl) hb
  have h2 : containsSub t fence3 = false :=
    containsSub_eq_false_of_head_notin (show fence3.head? = some btick from rfl) hb
  simp [applicantExtract, h1, h2]

/-- The applicant chain's fence stripping on a json-tagged block. -/
theorem applicantExtract_jsonWrap {s : List Char} {m z : Char}
    (hb : btick ∉ s) (h4 : s.head? = some m) (hmws : isPyWs m = false)
    (hz : s.getLast? = some z) (hzws : isPyWs z = false) :
    applicantExtract (jsonFenceL ++ ('\n' :: (s ++ '\n' :: fence3))) = s := by
  have hc := containsSub_of_opener jsonFenceL ('\n' :: (s ++ '\n' :: fence3))
    (by simp [jsonFenceL])
  have hfind0 : findSub (jsonFenceL ++ ('\n' :: (s ++ '\n' :: fence3))) jsonFenceL
      = some 0 := findSub_of_isPrefixOf (isPrefixOf_append_self _ _)
  have hdrop7 : (jsonFenceL ++ ('\n' :: (s ++ '\n' :: fence3))).drop 7
      = '\n' :: (s ++ '\n' :: fence3) := by
    rw [show (7 : Nat) = jsonFenceL.length from rfl]
    exact List.drop_left _ _
  have hfind := findSub_close_fence hb
  have htake := take_close_fence s
  have hstrip := pyStrip_nlWrap h4 hmws hz hzws
  simp [applicantExtract, hc, hfind0, hdrop7, hfind, htake, hstrip]

/-- The applicant chain's fence stripping on a plain block. -/
theorem applicantExtract_plainWrap {s : List Char} {m z : Char}
    (hb : btick ∉ s) (h4 : s.head? = some m) (hmws : isPyWs m = false)
    (hz : s.getLast? = some z) (hzws : isPyWs z = false) :
    applicantExtract (fence3 ++ ('\n' :: (s ++ '\n' :: fence3))) = s := by
  have hcj := noJsonFence_plainWrap hb
  have hc3 := containsSub_of_opener fence3 ('\n' :: (s ++ '\n' :: fence3))
    (by simp [fence3])
  have hfind0 : findSub (fence3 ++ ('\n' :: (s ++ '\n' :: fence3))) fence3
      = some 0 := findSub_of_isPrefixOf (isPrefixOf_append_self _ _)
  have hdrop3 : (fence3 ++ ('\n' :: (s ++ '\n' :: fence3))).drop 3
      = '\n' :: (s ++ '\n' :: fence3) := by
    rw [show (3 : Nat) = fence3.length from rfl]
    exact List.drop_left _ _
  have hfind := findSub_close_fence hb
  have htake := take_close_fence s
  have hstrip := pyStrip_nlWrap h4 hmws hz hzws
  simp [applicantExtract, hcj, hc3, hfind0, hdrop3, hfind, htake, hstrip]

/-! ## Organization matcher lemmas -/

theorem matchCompanyAux_eq_find (tl : List Char) (l : List (String × List String)) :
    matchCompanyAux tl l = (l.find? (fun p => p.2.any (kwHit tl))).map (·.1) := by
  induction l with
  | nil => rfl
  | cons a rest ih =>
    obtain ⟨c, kws⟩ := a
    rw [List.find?_cons]
    cases h : kws.any (kwHit tl) with
    | true => simp [matchCompanyAux, h]
    | false => simp [matchCompanyAux, h, ih]

/-- Claim C6: the Organization Matcher equals the first-declared-wins
reference definition: it returns the first organization (in the declared
`COMPANY_KEYWORDS` order) having some alias that occurs
case-insensitively as a substring of the text; it returns `none` exactly
when no alias of any organization occurs; and `some c` exactly when the
configuration splits as earlier organizations with no alias hit, then
`c` with an alias hit — so when several organizations match, the one
declared first wins. -/
theorem match_company_first_declared_wins :
    ∀ t : String,
      match_company t = matchCompanySpec t
      ∧ (match_company t = none ↔
          ∀ p ∈ COMPANY_KEYWORDS, ∀ k ∈ p.2, kwHit (pyLower t.data) k = false)
      ∧ (∀ c, match_company t = some c ↔
          ∃ l₁ p l₂, COMPANY_KEYWORDS = l₁ ++ p :: l₂ ∧ p.1 = c
            ∧ (∃ k ∈ p.2, kwHit (pyLower t.data) k = true)
            ∧ ∀ q ∈ l₁, ∀ k ∈ q.2, kwHit (pyLower t.data) k = false) := by
  intro t
  have heq := matchCompanyAux_eq_find (pyLower t.data) COMPANY_KEYWORDS
  have hmc : match_company t
      = (COMPANY_KEYWORDS.find? (fun p => p.2.any (kwHit (pyLower t.data)))).map (·.1) := heq
  refine ⟨hmc, ?_, ?_⟩
  · rw [hmc]
    rw [Option.map_eq_none']
    rw [List.find?_eq_none]
    constructor
    · intro h p hp k hk
      have := h p hp
      simp only [Bool.not_eq_true, List.any_eq_false] at this
      exact this k hk
    · intro h p hp
      simp only [Bool.not_eq_true, List.any_eq_false]
      exact fun k hk => h p hp k hk
  · intro c
    rw [hmc]
    constructor
    · intro h
      obtain ⟨b, hfind, hb1⟩ := Option.map_eq_some'.mp h
      obtain ⟨hpb, as, bs, hl, hneg⟩ := List.find?_eq_some.mp hfind
      refine ⟨as, b, bs, hl, hb1, ?_, ?_⟩
      · simpa [List.any_eq_true] using hpb
      · intro q hq k hk
        have hx := hneg q hq
        simp only [Bool.not_eq_true', List.any_eq_false] at hx
        exact Bool.eq_false_iff.mpr (hx k hk)
    · rintro ⟨l₁, p, l₂, hl, hpc, ⟨k, hk, hkhit⟩, hno⟩
      apply Option.map_eq_some'.mpr
      refine ⟨p, ?_, hpc⟩
      apply List.find?_eq_some.mpr
      refine ⟨?_, l₁, l₂, hl, ?_⟩
      · simp only [List.any_eq_true]
        exact ⟨k, hk, hkhit⟩
      · intro q hq
        simp only [Bool.not_eq_true', List.any_eq_false]
        exact fun k' hk' => Bool.eq_false_iff.mp (hno q hq k' hk')

/-! ## Poll-loop lemmas -/

theorem pollGo_fuel_irrel (env : Nat → String) (maxWait : Nat) :
    ∀ f1 f2 st elapsed k, maxWait - elapsed ≤ f1 → maxWait - elapsed ≤ f2 →
      pollGo env maxWait f1 st elapsed k = pollGo env maxWait f2 st elapsed k := by
  intro f1
  induction f1 with
  | zero =>
    intro f2 st elapsed k h1 h2
    have hc : ¬ (st = "PROCESSING" ∧ elapsed < maxWait) := by
      rintro ⟨-, hlt⟩
      omega
    cases f2 with
    | zero => rfl
    | succ f2' => simp [pollGo, hc]
  | succ f1' ih =>
    intro f2 st elapsed k h1 h2
    cases f2 with
    | zero =>
      have hc : ¬ (st = "PROCESSING" ∧ elapsed < maxWait) := by
        rintro ⟨-, hlt⟩
        omega
      simp [pollGo, hc]
    | succ f2' =>
      by_cases hc : st = "PROCESSING" ∧ elapsed < maxWait
      · simp only [pollGo, if_pos hc]
        exact ih f2' _ _ _ (by omega) (by omega)
      · simp [pollGo, hc]

/-- The Python loop's defining equation for `pollLoop`. -/
theorem pollLoop_eq (env : Nat → String) (maxWait : Nat) (st : String)
    (elapsed k : Nat) :
    pollLoop env maxWait st elapsed k
      = if st = "PROCESSING" ∧ elapsed < maxWait then
          pollLoop env maxWait (env (k + 1)) (elapsed + 2) (k + 1)
        else (st, k) := by
  unfold pollLoop
  by_cases hc : st = "PROCESSING" ∧ elapsed < maxWait
  · rw [if_pos hc]
    rcases hm : maxWait - elapsed with _ | m
    · exact absurd hc (by rintro ⟨-, hlt⟩; omega)
    · simp only [pollGo, if_pos hc]
      exact pollGo_fuel_irrel env maxWait m (maxWait - (elapsed + 2)) _ _ _
        (by omega) (by omega)
  · rw [if_neg hc]
    rcases hm : maxWait - elapsed with _ | m
    · rfl
    · simp [pollGo, hc]

theorem pollLoop_invariant (env : Nat → String) (maxWait : Nat) (init : String) :
    ∀ n k, maxWait - 2 * k ≤ n →
      k ≤ (pollLoop env maxWait (pollObs init env k) (2 * k) k).2
      ∧ (pollLoop env maxWait (pollObs init env k) (2 * k) k).1
          = pollObs init env (pollLoop env maxWait (pollObs init env k) (2 * k) k).2
      ∧ (∀ j, k ≤ j → j < (pollLoop env maxWait (pollObs init env k) (2 * k) k).2 →
          pollObs init env j = "PROCESSING" ∧ 2 * j < maxWait)
      ∧ (pollObs init env (pollLoop env maxWait (pollObs init env k) (2 * k) k).2
            ≠ "PROCESSING"
          ∨ maxWait ≤ 2 * (pollLoop env maxWait (pollObs init env k) (2 * k) k).2)
      ∧ ((pollLoop env maxWait (pollObs init env k) (2 * k) k).2 = k
          ∨ 2 * (pollLoop env maxWait (pollObs init env k) (2 * k) k).2 ≤ maxWait + 1) := by
  intro n
  induction n with
  | zero =>
    intro k hk
    have hex : ¬ (pollObs init env k = "PROCESSING" ∧ 2 * k < maxWait) := by
      rintro ⟨-, h2⟩
      omega
    rw [pollLoop_eq, if_neg hex]
    refine ⟨le_refl k, rfl, ?_, ?_, Or.inl rfl⟩
    · intro j h1 h2
      omega
    · by_cases hst : pollObs init env k = "PROCESSING"
      · right
        by_contra hlt
        exact hex ⟨hst, by omega⟩
      · exact Or.inl hst
  | succ n ih =>
    intro k hk
    rw [pollLoop_eq]
    by_cases h : pollObs init env k = "PROCESSING" ∧ 2 * k < maxWait
    · rw [if_pos h]
      have harg : env (k + 1) = pollObs init env (k + 1) := rfl
      have h2 : 2 * k + 2 = 2 * (k + 1) := by ring
      rw [harg, h2]
      have hrec := ih (k + 1) (by omega)
      obtain ⟨h1, h2', h3, h4, h5⟩ := hrec
      refine ⟨by omega, h2', ?_, h4, ?_⟩
      · intro j hj1 hj2
        rcases Nat.eq_or_lt_of_le hj1 with hEq | hlt
        · exact hEq ▸ ⟨h.1, h.2⟩
        · exact h3 j (by omega) hj2
      · rcases h5 with h5 | h5
        · right
          omega
        · exact Or.inr h5
    · rw [if_neg h]
      refine ⟨le_refl k, rfl, ?_, ?_, Or.inl rfl⟩
      · intro j h1 h2
        omega
      · by_cases hst : pollObs init env k = "PROCESSING"
        · right
          by_contra hlt
          exact h ⟨hst, by omega⟩
        · exact Or.inl hst

/-- Claim C8: with `wait_for_processing` requested, the upload routine's
poll loop observes `files.get` only while the last observed state is
PROCESSING and fewer than `maxWaitSeconds` seconds (2 per poll) have
accumulated; it always terminates, makes at most `⌈maxWait/2⌉` polls,
stops as soon as the state leaves PROCESSING or the budget is reached,
and returns the handle (display name replaced by the caller's filename)
carrying the last observed state — timeouts return the handle as-is, no
error is ever raised. -/
theorem upload_poll_bounded_and_last_state (f : GemFile) (env : Nat → String)
    (maxWait : Nat) (fname : String) :
    uploadToGemini ⟨.ok f, env⟩ fname true maxWait
        = .ok ({ f with
                  displayName := fname,
                  state := (pollLoop env maxWait f.state 0 0).1 },
               (pollLoop env maxWait f.state 0 0).2)
    ∧ (pollLoop env maxWait f.state 0 0).2 ≤ (maxWait + 1) / 2
    ∧ (pollLoop env maxWait f.state 0 0).1
        = pollObs f.state env (pollLoop env maxWait f.state 0 0).2
    ∧ (∀ j, j < (pollLoop env maxWait f.state 0 0).2 →
        pollObs f.state env j = "PROCESSING" ∧ 2 * j < maxWait)
    ∧ (pollObs f.state env (pollLoop env maxWait f.state 0 0).2 ≠ "PROCESSING"
        ∨ maxWait ≤ 2 * (pollLoop env maxWait f.state 0 0).2) := by
  have hinv := pollLoop_invariant env maxWait f.state maxWait 0 (by omega)
  have h0 : pollLoop env maxWait (pollObs f.state env 0) (2 * 0) 0
      = pollLoop env maxWait f.state 0 0 := by
    norm_num [pollObs]
  rw [h0] at hinv
  obtain ⟨-, h2, h3, h4, h5⟩ := hinv
  refine ⟨?_, ?_, h2, ?_, h4⟩
  · rcases hpl : pollLoop env maxWait f.state 0 0 with ⟨st, n⟩
    simp [uploadToGemini, hpl]
  · rcases h5 with h5 | h5
    · omega
    · omega
  · intro j hj
    exact h3 j (by omega) hj

/-! ## Comparison-confidence theorem (C9) -/

/-- Claim C9 (spec-modelled): the comparison confidence starts at 1.0,
loses 0.10 per unknown axis and 0.05 per one-sided-evidence axis, and is
clamped to [0, 1]; in the unclamped regime it is exactly the linear
penalty formula, and on 6 shared axes with 2 unknown and 1 one-sided it
equals 0.75. -/
theorem comparison_confidence_penalties :
    (∀ axes : List AxisCmp,
        0 ≤ comparisonConfidence axes ∧ comparisonConfidence axes ≤ 1)
    ∧ (∀ axes : List AxisCmp,
        (axes.countP (fun a => a.status = AxisStatus.unknown)) * (1/10 : ℚ)
            + (axes.countP (fun a => a.oneSided)) * (1/20 : ℚ) ≤ 1 →
          comparisonConfidence axes
            = 1 - (axes.countP (fun a => a.status = AxisStatus.unknown)) * (1/10 : ℚ)
                - (axes.countP (fun a => a.oneSided)) * (1/20 : ℚ))
    ∧ sixAxes.length = 6
    ∧ sixAxes.countP (fun a => a.status = AxisStatus.unknown) = 2
    ∧ sixAxes.countP (fun a => a.oneSided) = 1
    ∧ comparisonConfidence sixAxes = 3 / 4 := by
  refine ⟨?_, ?_, by decide, by decide, by decide, ?_⟩
  · intro axes
    unfold comparisonConfidence clamp01
    constructor
    · exact le_max_left 0 _
    · exact max_le (by norm_num) (min_le_left _ _)
  · intro axes h
    unfold comparisonConfidence clamp01
    have hs : (0:ℚ) ≤ (axes.countP (fun a => a.status = AxisStatus.unknown)) * (1/10 : ℚ)
        + (axes.countP (fun a => a.oneSided)) * (1/20 : ℚ) := by
      positivity
    rw [min_eq_right (by linarith), max_eq_right (by linarith)]
  · have h1 : sixAxes.countP (fun a => a.status = AxisStatus.unknown) = 2 := by decide
    have h2 : sixAxes.countP (fun a => a.oneSided) = 1 := by decide
    unfold comparisonConfidence clamp01
    rw [h1, h2]
    have h3 : (1 : ℚ) - ((2 : ℕ) : ℚ) * (1/10) - ((1 : ℕ) : ℚ) * (1/20) = 3/4 := by
      push_cast
      norm_num
    rw [h3, min_eq_right (by norm_num), max_eq_right (by norm_num)]

/-! ## Trace bookkeeping lemmas -/

theorem savesOf_append (a b : List Eff) : savesOf (a ++ b) = savesOf a ++ savesOf b := by
  simp [savesOf]

theorem savesOf_nil : savesOf [] = [] := rfl

theorem savesOf_cons (x : Eff) (l : List Eff) :
    savesOf (x :: l)
      = (if x = Eff.saveCompany ∨ x = Eff.saveApplicant then [x] else []) ++ savesOf l := by
  unfold savesOf
  rw [List.filter_cons]
  by_cases h : (x = Eff.saveCompany || x = Eff.saveApplicant) = true
  · rw [if_pos h, if_pos (by simpa using h)]
    rfl
  · rw [if_neg h, if_neg (by simpa using h)]
    rfl

theorem savesOf_scrapes (urls : List String) :
    savesOf (urls.map Eff.scrapeCall) = [] := by
  induction urls with
  | nil => rfl
  | cons u us ih => simpa [savesOf_cons] using ih

/-- `CompanyAnalysisChain.run` with `save_to_db=False` performs no
persistence call, on any path. -/
theorem companyRun_no_saves (co : CompanyOracle) (url : String) :
    savesOf (companyRun co false url).trace = [] := by
  unfold companyRun
  repeat'
    first
    | split
    | simp_all [savesOf_append, savesOf_cons, savesOf_nil, savesOf_scrapes]

/-- `run_from_s3` on the key *list* the orchestrator passes: boto3
rejects the list as an object key, so the branch raises before anything
is uploaded — for every oracle, on every list. -/
theorem applicantRunFromS3_strList (ao : S3Oracle) (b : Bool) (keys : List String) :
    applicantRunFromS3 ao b (.strList keys)
      = (.error .paramValidation, [.s3GetCall]) := rfl

/-! ## Claim C5 -/

/-- Claim C5 (code at the failing input): `run_full_analysis` does
accept a list of S3 keys, but its applicant branch binds the whole list
to `run_from_s3`'s single `s3_key` parameter; for every oracle, every
save flag and every key list, the branch fails S3 parameter validation,
obtains zero remote documents and never invokes the provider — it never
uploads the N listed documents, and the comparison stage is never
reached. -/
theorem applicant_branch_list_keys_never_uploads :
    ∀ (ao : S3Oracle) (b : Bool) (keys : List String),
      applicantRunFromS3 ao b (.strList keys) = (.error .paramValidation, [.s3GetCall])
      ∧ uploadsOf (applicantRunFromS3 ao b (.strList keys)).2 = []
      ∧ generatesOf (applicantRunFromS3 ao b (.strList keys)).2 = []
      ∧ ∀ (co : CompanyOracle) (cmp : CompareOracle) (url : String),
          (runFullAnalysis co ao cmp b url keys).compareInvoked = false := by
  intro ao b keys
  refine ⟨rfl, rfl, rfl, ?_⟩
  intro co cmp url
  unfold runFullAnalysis
  rw [applicantRunFromS3_strList]
  dsimp only
  rcases h : (companyRun co b url).result with e | cv <;> simp [h]

/-! ## Claim C2 -/

/-- Claim C2 (code at the failing input): in a two-file batch where the
second file's upload raises (the file does not exist), the first file's
remote handle has been obtained but `load_files` discards its partial
list before `self._uploaded_files` is assigned, so the `finally` block
releases nothing: one handle is uploaded and zero are deleted, violating
release-exactly-once. -/
theorem local_batch_partial_upload_leaks_handle :
    (analyzeLocalPdfs leakLoaderO ["profile/resume.pdf", "profile/portfolio.pdf"]).1
        = .error (.fileNotFound "profile/portfolio.pdf")
    ∧ uploadsOf (analyzeLocalPdfs leakLoaderO
        ["profile/resume.pdf", "profile/portfolio.pdf"]).2 = ["files/f0"]
    ∧ deletesOf (analyzeLocalPdfs leakLoaderO
        ["profile/resume.pdf", "profile/portfolio.pdf"]).2 = [] :=
  ⟨rfl, rfl, rfl⟩

/-! ## Claim C1 -/

/-- Claim C1 (amended): both branches of the fan-out always run to
completion and both their effect traces occur in the run's trace; if the
company branch failed, its error (first in declared order) is re-raised,
the comparison stage is not invoked and no result is returned; likewise
for an applicant-branch failure after a company success; and the
orchestrator adds no persistence call of its own — with
`save_to_db=False` (the API default) no persistence call happens
anywhere, but a surviving branch run with `save_to_db=True` has already
persisted its own record inside the branch (see the counterexample). -/
theorem run_full_analysis_failure_semantics (co : CompanyOracle) (ao : S3Oracle)
    (cmp : CompareOracle) (b : Bool) (url : String) (keys : List String) :
    (runFullAnalysis co ao cmp b url keys).trace
        = (companyRun co b url).trace ++ (applicantRunFromS3 ao b (.strList keys)).2
    ∧ (∀ e, (companyRun co b url).result = .error e →
        (runFullAnalysis co ao cmp b url keys).result = .error e
        ∧ (runFullAnalysis co ao cmp b url keys).compareInvoked = false)
    ∧ (∀ cv e, (companyRun co b url).result = .ok cv →
        (applicantRunFromS3 ao b (.strList keys)).1 = .error e →
        (runFullAnalysis co ao cmp b url keys).result = .error e
        ∧ (runFullAnalysis co ao cmp b url keys).compareInvoked = false)
    ∧ (b = false → savesOf (runFullAnalysis co ao cmp b url keys).trace = []) := by
  have hA := applicantRunFromS3_strList ao b keys
  refine ⟨?_, ?_, ?_, ?_⟩
  · unfold runFullAnalysis
    rw [hA]
    dsimp only
    rcases h : (companyRun co b url).result with e | cv <;> simp [h]
  · intro e he
    unfold runFullAnalysis
    rw [hA]
    dsimp only
    rw [he]
    exact ⟨rfl, rfl⟩
  · intro cv e hok herr
    rw [hA] at herr
    have he : e = PyErr.paramValidation := by
      injection herr.symm
    subst he
    unfold runFullAnalysis
    rw [hA]
    dsimp only
    rw [hok]
    exact ⟨rfl, rfl⟩
  · intro hb
    subst hb
    have htr : (runFullAnalysis co ao cmp false url keys).trace
        = (companyRun co false url).trace ++ [.s3GetCall] := by
      unfold runFullAnalysis
      rw [hA]
      dsimp only
      rcases h : (companyRun co false url).result with e | cv <;> simp [h]
    rw [htr, savesOf_append, companyRun_no_saves]
    rfl

/-- Claim C1 (counterexample to the claim as stated): with
`save_to_db=True`, the applicant branch fails, `run_full_analysis`
raises its error and never invokes comparison — yet the surviving
company branch has already persisted its record (a `saveCompany`
persistence call is in the trace), contradicting "makes no persistence
call for the surviving branch's record". -/
theorem run_full_analysis_persists_surviving_branch :
    (runFullAnalysis coTossO aoS3O cmpOkO true tossJobUrl s3Keys2).result
        = .error .paramValidation
    ∧ (runFullAnalysis coTossO aoS3O cmpOkO true tossJobUrl s3Keys2).compareInvoked
        = false
    ∧ Eff.saveCompany ∈ (runFullAnalysis coTossO aoS3O cmpOkO true tossJobUrl s3Keys2).trace :=
  ⟨rfl, rfl, by decide⟩

/-! ## Claim C3 -/

/-- Claim C3 (counterexample to the claim as stated): the company-chain
variant of `parse_json_with_markdown` — one of the two functions the
claim is about — raises (`json.loads` fails) on leading prose before an
unfenced object, where the compare-chain variant returns the first
object. -/
theorem company_extractor_rejects_prose :
    parse_json_with_markdown_company "Here is the result: \x7b\"a\": 1\x7d Done." = none
    ∧ parse_json_with_markdown_compare "Here is the result: \x7b\"a\": 1\x7d Done."
        = some (.jobj [("a", .jnum "1")]) :=
  ⟨rfl, rfl⟩

/-- Claim C3 (amended): the compare-chain Output Extractor satisfies the
claim — on fence-free text made of `{`-free leading prose followed by a
complete JSON object (here: a region `mid` whose `raw_decode` yields `v`
leaving exactly the trailing junk `rest` unread, not ending in
whitespace), it returns the parsed first object, discarding everything
before the first `{` and everything after the object.  The company-chain
variant does not (see the counterexample). -/
theorem compare_extractor_takes_first_object (pre mid rest : List Char) (v : JValue)
    (hb1 : btick ∉ pre) (hb2 : btick ∉ mid) (hp : lbrace ∉ pre)
    (hhead : mid.head? = some lbrace)
    (hlast : ∃ z, mid.getLast? = some z ∧ isPyWs z = false)
    (hdec : rawDecode mid = some (v, rest)) :
    parse_json_with_markdown_compare ⟨pre ++ mid⟩ = some v :=
  compare_extract_core hb1 hb2 hp hhead hlast hdec

theorem compare_extractor_takes_first_object_witness :
    parse_json_with_markdown_compare
        ⟨"Output: ".data ++ "\x7b\"score\": 3\x7d trailing!".data⟩
      = some (.jobj [("score", .jnum "3")]) :=
  compare_extractor_takes_first_object "Output: ".data
    "\x7b\"score\": 3\x7d trailing!".data " trailing!".data
    (.jobj [("score", .jnum "3")])
    (by decide) (by decide) (by decide) (by decide)
    ⟨'!', by decide, by decide⟩ rfl

/-! ## Claim C7 -/

/-- Claim C7, amended: for a serialized JSON object `s` that contains no
backtick (starting with `{`, ending with `}`, decoding exactly to `v`),
both Output Extractor implementations — the compare-chain regex variant
and the applicant-chain `find`-based variant — return the same parsed
value on `s` bare, on `s` in a json-tagged fence, and on `s` in a plain
fence; when a json-tagged fence is present it is the interior of the
first such block that gets parsed.  The backtick-free proviso is
necessary: see the counterexample below for a serialization on which
fence-wrapping is not transparent. -/
theorem extractor_fence_wrapping_transparent (s : String) (v : JValue)
    (hb : btick ∉ s.data)
    (hhead : s.data.head? = some lbrace)
    (hlast : s.data.getLast? = some rbrace)
    (hdec : rawDecode s.data = some (v, [])) :
    parse_json_with_markdown_compare s = some v
    ∧ parse_json_with_markdown_compare (jsonOpenS ++ s ++ fenceCloseS) = some v
    ∧ parse_json_with_markdown_compare (fenceOpenS ++ s ++ fenceCloseS) = some v
    ∧ applicantParse s = some v
    ∧ applicantParse (jsonOpenS ++ s ++ fenceCloseS) = some v
    ∧ applicantParse (fenceOpenS ++ s ++ fenceCloseS) = some v := by
  refine ⟨?_, ?_, ?_, ?_, ?_, ?_⟩
  · have h := @compare_extract_core ([] : List Char) s.data [] v
      (by simp) hb (by simp) hhead ⟨rbrace, hlast, by decide⟩ hdec
    rw [List.nil_append] at h
    exact h
  · exact compare_extract_jsonfenced hb hhead hlast hdec
  · exact compare_extract_plainfenced hb hhead hlast hdec
  · show pyLoads ⟨applicantExtract s.data⟩ = some v
    rw [applicantExtract_plain hb]
    exact pyLoads_exact hhead hdec
  · show pyLoads ⟨applicantExtract (jsonOpenS ++ s ++ fenceCloseS).data⟩ = some v
    rw [data_jsonWrap, applicantExtract_jsonWrap hb hhead (by decide) hlast (by decide)]
    exact pyLoads_exact hhead hdec
  · show pyLoads ⟨applicantExtract (fenceOpenS ++ s ++ fenceCloseS).data⟩ = some v
    rw [data_plainWrap, applicantExtract_plainWrap hb hhead (by decide) hlast (by decide)]
    exact pyLoads_exact hhead hdec

theorem extractor_fence_wrapping_transparent_witness :
    parse_json_with_markdown_compare "\x7b\"ok\": true\x7d"
        = some (.jobj [("ok", .jbool true)])
    ∧ parse_json_with_markdown_compare (jsonOpenS ++ "\x7b\"ok\": true\x7d" ++ fenceCloseS)
        = some (.jobj [("ok", .jbool true)])
    ∧ parse_json_with_markdown_compare (fenceOpenS ++ "\x7b\"ok\": true\x7d" ++ fenceCloseS)
        = some (.jobj [("ok", .jbool true)])
    ∧ applicantParse "\x7b\"ok\": true\x7d" = some (.jobj [("ok", .jbool true)])
    ∧ applicantParse (jsonOpenS ++ "\x7b\"ok\": true\x7d" ++ fenceCloseS)
        = some (.jobj [("ok", .jbool true)])
    ∧ applicantParse (fenceOpenS ++ "\x7b\"ok\": true\x7d" ++ fenceCloseS)
        = some (.jobj [("ok", .jbool true)]) :=
  extractor_fence_wrapping_transparent "\x7b\"ok\": true\x7d"
    (.jobj [("ok", .jbool true)]) (by decide) (by decide) (by decide) rfl

/-- Claim C7 counterexample: fence-wrapping is not transparent for every
serialization of a single JSON object.  `sTicky` is the valid
serialization whose string literal holds three consecutive backticks:
it decodes exactly to `vTicky`, and the compare-chain extractor parses
it bare; but in both fenced wrappings the fence scan takes the first
closing triple backtick, which is the one inside the string literal, so
the cut interior is no longer valid JSON and both extractors fail.  The
applicant-chain variant fails even on the bare text: its plain-fence
branch slices from the in-string backticks to the end minus one
character. -/
theorem extractor_fence_wrapping_breaks_on_backtick_content :
    rawDecode sTicky.data = some (vTicky, [])
    ∧ parse_json_with_markdown_compare sTicky = some vTicky
    ∧ parse_json_with_markdown_compare (jsonOpenS ++ sTicky ++ fenceCloseS) = none
    ∧ parse_json_with_markdown_compare (fenceOpenS ++ sTicky ++ fenceCloseS) = none
    ∧ applicantParse (jsonOpenS ++ sTicky ++ fenceCloseS) = none
    ∧ applicantParse (fenceOpenS ++ sTicky ++ fenceCloseS) = none
    ∧ applicantParse sTicky = none :=
  ⟨rfl, rfl, rfl, rfl, rfl, rfl, rfl⟩

/-! ## Claim C4 -/

theorem runSupplementaryEntries_cons (fetch : String → ScrapeResultM) (u : String)
    (us : List String) :
    runSupplementaryEntries fetch (u :: us)
      = (if (fetch u).success then [sepEntry u (fetch u).content] else [])
        ++ runSupplementaryEntries fetch us := by
  unfold runSupplementaryEntries
  rw [List.filterMap_cons]
  by_cases h : (fetch u).success
  · simp [h]
  · simp [h]

theorem runSupplementaryEntries_eq_filter_map (fetch : String → ScrapeResultM)
    (urls : List String) :
    runSupplementaryEntries fetch urls
      = (urls.filter (fun u => (fetch u).success)).map
          (fun u => sepEntry u (fetch u).content) := by
  induction urls with
  | nil => rfl
  | cons u us ih =>
    rw [runSupplementaryEntries_cons, List.filter_cons]
    by_cases h : (fetch u).success
    · simp [h, ih]
    · simp [h, ih]

/-- Claim C4 (amended): when the primary fetch succeeds and matches an
organization, `CompanyAnalysisChain.run` absorbs every supplementary
fetch failure (the run always reaches the data-collection stage), and
the combined text it passes there consists of the job-posting entry
followed by one separator entry per *successfully* fetched supplementary
URL, in order — failed supplementary URLs are omitted (only logged to
the console), not recorded as inline failure markers.  (The unused
`scrape_urls` helper is the variant that would include failure
markers.) -/
theorem company_combined_text_lists_successful_fetches
    (o : CompanyOracle) (b : Bool) (url name : String)
    (hs : o.startup = .ok ())
    (hj : (o.fetch url).success = true)
    (hm : match_company (o.fetch url).content = some name) :
    (companyRun o b url).combined
      = some (String.intercalate "\n\n"
          (("=== 채용공고: " ++ url ++ " ===\n" ++ (o.fetch url).content)
            :: ((get_company_sources name).filter
                  (fun u => (o.fetch u).success)).map
                (fun u => sepEntry u (o.fetch u).content))) := by
  have hent := runSupplementaryEntries_eq_filter_map o.fetch (get_company_sources name)
  unfold companyRun
  rw [hs]
  dsimp only
  rw [if_neg (by simp [hj]), hm]
  dsimp only
  repeat' split
  all_goals simp [hent]

set_option maxRecDepth 10000 in
theorem company_combined_text_lists_successful_fetches_witness :
    (companyRun coTossO false tossJobUrl).combined
      = some (String.intercalate "\n\n"
          (("=== 채용공고: " ++ tossJobUrl ++ " ===\n" ++ (coTossO.fetch tossJobUrl).content)
            :: ((get_company_sources "토스").filter
                  (fun u => (coTossO.fetch u).success)).map
                (fun u => sepEntry u (coTossO.fetch u).content))) :=
  company_combined_text_lists_successful_fetches coTossO false tossJobUrl "토스"
    rfl rfl (by decide)

set_option maxRecDepth 10000 in
/-- Claim C4 (counterexample to the claim as stated): the first declared
supplementary URL of 토스 fails to fetch, the run absorbs the failure,
but the combined text handed to the extraction stage contains neither a
failure marker nor any entry for that URL — it does not "contain an
entry for every supplementary URL". -/
theorem company_combined_text_omits_failed_url :
    "https://toss.im/career/culture" ∈ get_company_sources "토스"
    ∧ (coTossO.fetch "https://toss.im/career/culture").success = false
    ∧ (companyRun coTossO false tossJobUrl).combined = some tossCombined
    ∧ containsSubS tossCombined "career/culture" = false
    ∧ containsSubS tossCombined "(실패)" = false :=
  ⟨by decide, rfl, by decide, by decide, by decide⟩

/-! ## Claim C10 -/

/-- Claim C10 (counterexample to the claim as stated):
`BrowserScraper.scrape` is not total — `await self.start()` stands
before the `try` block, so a browser-launch failure on the lazy first
start propagates as a raised exception instead of a failed
`ScrapeResult`. -/
theorem browser_scrape_raises_on_startup_failure :
    (browserScrape startFailO false "https://example.com").result
      = .error (.external "browser launch failed") := rfl

theorem browserScrape_started_ok (o : PageOracle) (u : String) :
    ∃ r, (browserScrape o true u).result = .ok r := by
  unfold browserScrape
  rcases o.newPage with e | u1
  · exact ⟨_, rfl⟩
  · cases u1
    rcases o.goto with e | u2
    · exact ⟨_, rfl⟩
    · cases u2
      rcases o.innerText with e | raw
      · exact ⟨_, rfl⟩
      · exact ⟨_, rfl⟩

theorem browserScrapeMultiple_ok (os : Nat → PageOracle) :
    ∀ (urls : List String) (i : Nat),
      ∃ rs, browserScrapeMultiple os true urls i = .ok rs ∧ rs.length = urls.length := by
  intro urls
  induction urls with
  | nil => exact fun i => ⟨[], rfl, rfl⟩
  | cons u us ih =>
    intro i
    obtain ⟨r, hr⟩ := browserScrape_started_ok (os i) u
    obtain ⟨rs, hrs, hlen⟩ := ih (i + 1)
    refine ⟨r :: rs, ?_, by simp [hlen]⟩
    simp only [browserScrapeMultiple, hr, hrs]

/-- Claim C10 (amended): once the browser is started (or its lazy
startup succeeds), `scrape` is total: it always returns a
`ScrapeResult`; a failure in page creation, navigation or text
extraction is captured as `success=False` with empty content and the
error message; the page, when one was opened, is closed on every exit
path; and on success the content is the cleaned `innerText`.  Under the
same condition a whole `scrape_multiple` batch returns one result per
URL, so one fetch failure never aborts a batch. -/
theorem browser_scrape_captures_failures_after_startup
    (o : PageOracle) (started : Bool) (url : String)
    (h : started = true ∨ o.startup = .ok ()) :
    (∃ r, (browserScrape o started url).result = .ok r)
    ∧ (∀ r, (browserScrape o started url).result = .ok r →
        r.url = url ∧ (r.success = false → r.content = ""))
    ∧ (∀ e, o.newPage = .error e →
        browserScrape o started url = ⟨.ok ⟨url, "", false, e.msg⟩, false, false⟩)
    ∧ (∀ e, o.newPage = .ok () → o.goto = .error e →
        browserScrape o started url = ⟨.ok ⟨url, "", false, e.msg⟩, true, true⟩)
    ∧ (∀ e, o.newPage = .ok () → o.goto = .ok () → o.innerText = .error e →
        browserScrape o started url = ⟨.ok ⟨url, "", false, e.msg⟩, true, true⟩)
    ∧ (∀ raw, o.newPage = .ok () → o.goto = .ok () → o.innerText = .ok raw →
        browserScrape o started url = ⟨.ok ⟨url, cleanText raw, true, ""⟩, true, true⟩)
    ∧ (browserScrape o started url).pageClosed = (browserScrape o started url).pageOpened
    ∧ (∀ (os : Nat → PageOracle) (urls : List String) (i : Nat),
        ∃ rs, browserScrapeMultiple os true urls i = .ok rs
          ∧ rs.length = urls.length) := by
  have hstart : (if started then Except.ok () else o.startup : Except PyErr Unit)
      = .ok () := by
    rcases h with h | h
    · simp [h]
    · cases started
      · simpa using h
      · rfl
  have hbs : ∀ out : ScrapeOut,
      (match o.newPage with
        | .error e => ScrapeOut.mk (.ok ⟨url, "", false, e.msg⟩) false false
        | .ok () =>
          match o.goto with
          | .error e => ScrapeOut.mk (.ok ⟨url, "", false, e.msg⟩) true true
          | .ok () =>
            match o.innerText with
            | .error e => ScrapeOut.mk (.ok ⟨url, "", false, e.msg⟩) true true
            | .ok raw => ScrapeOut.mk (.ok ⟨url, cleanText raw, true, ""⟩) true true) = out →
      browserScrape o started url = out := by
    intro out hout
    unfold browserScrape
    rw [hstart]
    exact hout
  rcases hnp : o.newPage with e | u1
  · have hrun := hbs _ (by rw [hnp])
    refine ⟨⟨_, by rw [hrun]⟩, ?_, ?_, ?_, ?_, ?_, by rw [hrun], ?_⟩
    · intro r hr
      rw [hrun] at hr
      cases hr
      exact ⟨rfl, fun _ => rfl⟩
    · intro e' he'
      injection he' with hee
      subst hee
      exact hrun
    · intro e' h1 h2
      exact Except.noConfusion h1
    · intro e' h1 h2 h3
      exact Except.noConfusion h1
    · intro raw h1 h2 h3
      exact Except.noConfusion h1
    · exact browserScrapeMultiple_ok
  · cases u1
    rcases hg : o.goto with e | u2
    · have hrun := hbs _ (by rw [hnp, hg])
      refine ⟨⟨_, by rw [hrun]⟩, ?_, ?_, ?_, ?_, ?_, by rw [hrun], ?_⟩
      · intro r hr
        rw [hrun] at hr
        cases hr
        exact ⟨rfl, fun _ => rfl⟩
      · intro e' he'
        exact Except.noConfusion he'
      · intro e' h1 h2
        injection h2 with hee
        subst hee
        exact hrun
      · intro e' h1 h2 h3
        exact Except.noConfusion h2
      · intro raw h1 h2 h3
        exact Except.noConfusion h2
      · exact browserScrapeMultiple_ok
    · cases u2
      rcases hit : o.innerText with e | raw
      · have hrun := hbs _ (by rw [hnp, hg, hit])
        refine ⟨⟨_, by rw [hrun]⟩, ?_, ?_, ?_, ?_, ?_, by rw [hrun], ?_⟩
        · intro r hr
          rw [hrun] at hr
          cases hr
          exact ⟨rfl, fun _ => rfl⟩
        · intro e' he'
          exact Except.noConfusion he'
        · intro e' h1 h2
          exact Except.noConfusion h2
        · intro e' h1 h2 h3
          injection h3 with hee
          subst hee
          exact hrun
        · intro raw' h1 h2 h3
          exact Except.noConfusion h3
        · exact browserScrapeMultiple_ok
      · have hrun := hbs _ (by rw [hnp, hg, hit])
        refine ⟨⟨_, by rw [hrun]⟩, ?_, ?_, ?_, ?_, ?_, by rw [hrun], ?_⟩
        · intro r hr
          rw [hrun] at hr
          cases hr
          refine ⟨rfl, fun hfalse => ?_⟩
          cases hfalse
        · intro e' he'
          exact Except.noConfusion he'
        · intro e' h1 h2
          exact Except.noConfusion h2
        · intro e' h1 h2 h3
          exact Except.noConfusion h3
        · intro raw' h1 h2 h3
          injection h3 with hee
          subst hee
          exact hrun
        · exact browserScrapeMultiple_ok

theorem browser_scrape_captures_failures_after_startup_witness :
    (∃ r, (browserScrape pageOkO true "https://example.com").result = .ok r)
    ∧ (browserScrape pageOkO true "https://example.com").pageClosed
        = (browserScrape pageOkO true "https://example.com").pageOpened := by
  have h := browser_scrape_captures_failures_after_startup pageOkO true
    "https://example.com" (Or.inl rfl)
  exact ⟨h.1, h.2.2.2.2.2.2.1⟩

end CultureFit
